import Mathlib

/-!
Verification development for the SanJego repository.

The Python sources are embedded shallowly:

* `Tower`, `Move`, `GameField` follow `src/GameOfSanJego.py` (the module
  imported by the repository's test suite as `src.GameOfSanJego`).  A tower is
  its brick list (`structure` attribute, index 0 = topmost).  Field cells are
  `Option Tower` because Python stores `Tower` objects that may conceptually be
  absent; `set_tower_at` converts `None` to a unit tower exactly as the source
  does.  Mutation is modelled by explicit state passing, and Python exceptions
  by `Except SJError`.
* the rule sets follow `src/Rulesets.py`.
* `GameNode`, `children` and `alpha_beta_search` follow `src/Searching.py`
  (and its twin `searching/methods.py` / `searching/util.py`).
* `GameFieldV0` embeds the legacy top-level `GameOfSanJego.py`, whose range
  guard differs by operator precedence; Python's negative list indexing is
  modelled by `pyGetElem` / `pySetElem`.

Real numbers: the search uses float infinities only as initial bounds, so
search values live in `XInt := WithBot (WithTop Int)`.  The move-ordering
heuristic computes `h - abs(x - h/2)` on half-integers; these float values are
exact, and the embedding stores the value doubled (an integer), which preserves
every comparison the program makes with them.
-/

deriving instance DecidableEq for Except

abbrev Pos := Int × Int

/-- Tower: the `structure` attribute of `src/GameOfSanJego.py`, a list of
player tags, index 0 topmost. -/
abbrev Tower := List Int

/-- Tower.height: length of the underlying brick structure. -/
def Tower.height (t : Tower) : Nat := t.length

/-- Tower.owner: the topmost brick; `none` models the `AttributeError` raised
for a unit tower. -/
def Tower.owner (t : Tower) : Option Int := t.head?

/-- Tower.move_on_top_of: `self.structure += tower.structure`. -/
def Tower.move_on_top_of (t lower : Tower) : Tower := t ++ lower

/-- Tower.detach: removes `top` from the top of `t`; `none` models the
`ValueError` raised when `top` is not the top segment of `t`. -/
def Tower.detach (t top : Tower) : Option Tower :=
  if t.take top.length = top then some (t.drop top.length) else none

/-- Move: from/to positions plus the captured tower reference used for undo. -/
structure Move where
  from_pos : Pos
  to_pos : Pos
  from_tower : Option Tower
deriving DecidableEq

/-- Move.__init__ creates a move with no undo data. -/
def Move.mk2 (fp tp : Pos) : Move := ⟨fp, tp, none⟩

/-- Move.already_made: the move counts as made when `from_tower` is set. -/
def Move.already_made (m : Move) : Bool := m.from_tower.isSome

/-- Move.skip: the sentinel skipping move. -/
def Move.skip : Move := ⟨(-1, -1), (-1, -1), none⟩

/-- Move.is_skip_move. -/
def Move.is_skip_move (m : Move) : Bool :=
  m.from_pos = (-1, -1) && m.to_pos = (-1, -1)

/-- Python exceptions raised by the embedded methods. -/
inductive SJError
  | alreadyMade
  | missingFromPos
  | missingToPos
  | takeBackNotMade
  | towerAtFromPos
  | toPosTooSmall
  | wholeTower
  | detachMismatch
deriving DecidableEq

/-- GameField of `src/GameOfSanJego.py`: a row-major list of cells. -/
structure GameField where
  height : Nat
  width : Nat
  player1 : Int
  player2 : Int
  field : List (Option Tower)
deriving DecidableEq

/-- GameField.__init__: checkerboard of unit-height towers
`player_tuple[(h+w) % 2]`.  (The `ValueError` for `player1 == player2` guards
construction only and does not affect the built field.) -/
def GameField.init (height width : Nat) (player1 player2 : Int) : GameField :=
  { height := height, width := width, player1 := player1, player2 := player2,
    field := (List.range height).flatMap fun h =>
      (List.range width).map fun w =>
        some [if (h + w) % 2 = 0 then player1 else player2] }

/-- Range check `0 <= pos[0] < self.height and 0 <= pos[1] < self.width`. -/
def GameField.in_range (gf : GameField) (pos : Pos) : Bool :=
  0 ≤ pos.1 && pos.1 < (gf.height : Int) && (0 ≤ pos.2 && pos.2 < (gf.width : Int))

/-- Row-major cell index `x * self.width + y`. -/
def GameField.idx (gf : GameField) (pos : Pos) : Nat :=
  pos.1.toNat * gf.width + pos.2.toNat

/-- GameField.get_tower_at: `None` for out-of-range positions. -/
def GameField.get_tower_at (gf : GameField) (pos : Pos) : Option Tower :=
  if gf.in_range pos then (gf.field.getD (gf.idx pos) none) else none

/-- GameField.set_tower_at: stores a unit tower when given `None`; returns
whether the write happened. -/
def GameField.set_tower_at (gf : GameField) (pos : Pos) (tower : Option Tower) :
    Bool × GameField :=
  if gf.in_range pos then
    (true, { gf with field := gf.field.set (gf.idx pos) (some (tower.getD [])) })
  else
    (false, gf)

/-- Highest tower height owned by `p` (0 if `p` owns no tower), following the
filter in `GameField.value`: present, height > 0, owner = p. -/
def GameField.highest (gf : GameField) (p : Int) : Nat :=
  ((gf.field.filterMap id).filter fun t =>
      decide (0 < t.length) && decide (t.head? = some p)).foldr
    (fun t acc => max t.length acc) 0

/-- GameField.value: difference between the players' highest tower heights. -/
def GameField.value (gf : GameField) : Int :=
  (gf.highest gf.player1 : Int) - (gf.highest gf.player2 : Int)

/-- Shared core of `GameField.make_move` once positions are resolved. -/
def GameField.make_move_go (gf : GameField) (fp tp : Pos) (m? : Option Move) :
    Bool × GameField × Option Move :=
  if fp = tp then (false, gf, m?)
  else
    match gf.get_tower_at fp, gf.get_tower_at tp with
    | some top_tower, some lower_tower =>
        let gf1 := (gf.set_tower_at tp (some (top_tower.move_on_top_of lower_tower))).2
        let gf2 := (gf1.set_tower_at fp none).2
        (true, gf2, m?.map fun m => { m with from_tower := some top_tower })
    | _, _ => (false, gf, m?)

/-- GameField.make_move with optional explicit positions and optional move
object (the move's positions take precedence). -/
def GameField.make_move (gf : GameField) (from_pos to_pos : Option Pos)
    (move : Option Move) : Except SJError (Bool × GameField × Option Move) :=
  match move with
  | some m =>
      if m.is_skip_move then .ok (true, gf, some m)
      else if m.already_made then .error .alreadyMade
      else .ok (gf.make_move_go m.from_pos m.to_pos (some m))
  | none =>
      match from_pos with
      | none => .error .missingFromPos
      | some fp =>
          match to_pos with
          | none => .error .missingToPos
          | some tp => .ok (gf.make_move_go fp tp none)

/-- GameField.take_back: reverts the most recent move, with the source's guard
sequence; each raised error becomes an `SJError`. -/
def GameField.take_back (gf : GameField) (move : Move) :
    Except SJError (GameField × Move) :=
  if move.is_skip_move then .ok (gf, move)
  else
    match move.from_tower with
    | none => .error .takeBackNotMade
    | some ft =>
        let bad_from :=
          match gf.get_tower_at move.from_pos with
          | none => false
          | some t => decide (t.height ≠ 0)
        if bad_from then .error .towerAtFromPos
        else
          match gf.get_tower_at move.to_pos with
          | none => .error .toPosTooSmall
          | some tt =>
              if tt.height < ft.height then .error .toPosTooSmall
              else if ft = tt then .error .wholeTower
              else
                match tt.detach ft with
                | none => .error .detachMismatch
                | some rest =>
                    let gf1 := (gf.set_tower_at move.to_pos (some rest)).2
                    let gf2 := (gf1.set_tower_at move.from_pos (some ft)).2
                    .ok (gf2, { move with from_tower := none })

/-- Closed tagged variant for the rule-set class hierarchy of
`src/Rulesets.py`. -/
inductive RuleSetT
  | base
  | kings
  | oppose
  | majority
  | free
deriving DecidableEq

/-- BaseRuleSet.check_quad_neighbourhood: Manhattan distance at most 1. -/
def check_quad_neighbourhood (fp tp : Pos) : Bool :=
  (fp.1 - tp.1).natAbs + (fp.2 - tp.2).natAbs ≤ 1

/-- BaseRuleSet.check_player_is_owner; the Python code reads `tower.owner`
(= `structure[0]`), which its callers only reach for towers of height > 0. -/
def check_player_is_owner (t : Tower) (player : Int) : Bool :=
  t.head? = some player

/-- BaseRuleSet.basically_allows_move: positions distinct, both on the board
and both holding towers of height > 0; returns both towers on success. -/
def basically_allows_move (gf : GameField) (fp tp : Pos) :
    Option (Tower × Tower) :=
  if fp = tp then none
  else
    match gf.get_tower_at fp, gf.get_tower_at tp with
    | some top_tower, some lower_tower =>
        if top_tower.height = 0 || lower_tower.height = 0 then none
        else some (top_tower, lower_tower)
    | _, _ => none

/-- allows_move of the five rule-set variants, dispatched on the tag.  The
newer `rulesets.Rulesets` module (missing from src/) additionally accepts a
`move=` keyword; per spec section 4.3 all variants expose
`allowsMove(player, fromPos, toPos)`, so callers pass the move's positions. -/
def allows_move (rs : RuleSetT) (gf : GameField) (player : Int) (fp tp : Pos) :
    Bool :=
  match rs with
  | .base =>
      match basically_allows_move gf fp tp with
      | none => false
      | some (top_tower, _) =>
          check_player_is_owner top_tower player && check_quad_neighbourhood fp tp
  | .kings =>
      match basically_allows_move gf fp tp with
      | none => false
      | some (top_tower, _) =>
          check_player_is_owner top_tower player &&
            ((fp.1 - tp.1).natAbs ≤ 1 && (fp.2 - tp.2).natAbs ≤ 1)
  | .oppose =>
      match basically_allows_move gf fp tp with
      | none => false
      | some (top_tower, lower_tower) =>
          check_player_is_owner top_tower player && check_quad_neighbourhood fp tp &&
            !(top_tower.head? = lower_tower.head? : Bool)
  | .majority =>
      match basically_allows_move gf fp tp with
      | none => false
      | some (top_tower, _) =>
          check_quad_neighbourhood fp tp &&
            !(decide (2 * top_tower.count player < top_tower.height))
  | .free =>
      match basically_allows_move gf fp tp with
      | none => false
      | some _ => check_quad_neighbourhood fp tp

/-- GameNode of `src/Searching.py` minus the shared `game_field` reference,
which the embedding threads explicitly through every operation. -/
structure GameNode where
  rule_set_type : RuleSetT
  move : Option Move
  max_player : Bool
  skipped_before : Bool
deriving DecidableEq

/-- GameNode.player: `player1` if the maximising player moves next, else
`player2` (these attributes never change, so reading the threaded field agrees
with the snapshot Python takes at node construction). -/
def GameNode.player (n : GameNode) (gf : GameField) : Int :=
  if n.max_player then gf.player1 else gf.player2

/-- GameNode.heuristic_value, scaled by 2 so that the exact half-integer float
arithmetic of the source lands in `Int`; all the program does with heuristic
values is compare them, which doubling preserves. -/
def GameNode.heuristic_value (n : GameNode) (gf : GameField) : Int :=
  match n.move with
  | some m =>
      if m.is_skip_move then 2 * gf.value
      else
        let x := m.from_pos.1
        let y := m.from_pos.2
        let h : Int := gf.height
        let w : Int := gf.width
        let bias_x2 := 2 * h - |2 * x - h|
        let bias_y2 := 2 * w - |2 * y - w|
        if n.max_player then 2 * gf.value - bias_x2 - bias_y2
        else 2 * gf.value + bias_x2 + bias_y2
  | none => 2 * gf.value

/-- Modelled from the spec: the `for from_pos in list(self.game_field.field)`
loop of `_children` iterates the positions of the missing
`sanjego.gameobjects.GameField` (a position-keyed mapping built row-major);
spec section 4.4 says move generation "enumerates every on-board position as a
candidate from". -/
def board_positions (gf : GameField) : List Pos :=
  (List.range gf.height).flatMap fun x =>
    (List.range gf.width).map fun y => ((x : Int), (y : Int))

/-- King's-neighbourhood scan of `_children` (nine candidates, including the
position itself, in source order). -/
def kings_scan (p : Pos) : List Pos :=
  [p.1 - 1, p.1, p.1 + 1].flatMap fun x =>
    [p.2 - 1, p.2, p.2 + 1].map fun y => (x, y)

/-- Candidate moves scanned by `_children`, in generation order. -/
def candidate_moves (gf : GameField) : List Move :=
  (board_positions gf).flatMap fun fp =>
    (kings_scan fp).map fun tp => Move.mk2 fp tp

/-- Loop body of `_children` for one allowed move: construct the child node,
make its move on the shared field, compute the heuristic, take the move back,
and yield the child with its heuristic. -/
def GameNode.children_step (n : GameNode) (gf : GameField) (m : Move) :
    Except SJError ((GameNode × Int) × GameField) := do
  let (_, gf1, m1?) ← gf.make_move none none (some m)
  let m1 := m1?.getD m
  let c1 : GameNode := ⟨n.rule_set_type, some m1, !n.max_player, false⟩
  let hv := c1.heuristic_value gf1
  let (gf2, m2) ← gf1.take_back m1
  pure ((⟨n.rule_set_type, some m2, !n.max_player, false⟩, hv), gf2)

/-- The scan loop of `_children` over the candidate list. -/
def GameNode.children_aux (n : GameNode) :
    List Move → GameField → Except SJError (List (GameNode × Int) × GameField)
  | [], gf => .ok ([], gf)
  | m :: ms, gf =>
      if allows_move n.rule_set_type gf (n.player gf) m.from_pos m.to_pos then do
        let (c, gf1) ← n.children_step gf m
        let (rest, gf2) ← n.children_aux ms gf1
        pure (c :: rest, gf2)
      else n.children_aux ms gf

/-- GameNode._children: scan loop plus the synthetic skip child produced when
no move was yielded and the previous ply was not already a skip. -/
def GameNode.children_unsorted (n : GameNode) (gf : GameField) :
    Except SJError (List (GameNode × Int) × GameField) := do
  let (cs, gf1) ← n.children_aux (candidate_moves gf) gf
  if cs.isEmpty && !n.skipped_before then
    let gn : GameNode := ⟨n.rule_set_type, some Move.skip, !n.max_player, true⟩
    pure ([(gn, gn.heuristic_value gf1)], gf1)
  else pure (cs, gf1)

/-- GameNode.children: `_children` sorted by heuristic, descending for the
maximising player and ascending otherwise.  Python's `sorted` is stable, so the
stable `insertionSort` with a non-strict comparator yields the same list. -/
def GameNode.children (n : GameNode) (gf : GameField) :
    Except SJError (List GameNode × GameField) := do
  let (cs, gf1) ← n.children_unsorted gf
  let sorted :=
    if n.max_player then List.insertionSort (fun a b => b.2 ≤ a.2) cs
    else List.insertionSort (fun a b => a.2 ≤ b.2) cs
  pure (sorted.map Prod.fst, gf1)

/-- Search values: integers extended with the float infinities used as the
initial alpha/beta window. -/
abbrev XInt := WithBot (WithTop Int)

/-- Embeds an ordinary game value into the search value type. -/
def XInt.ofInt (n : Int) : XInt := ((n : WithTop Int) : XInt)

/-- Value `-float('inf')`. -/
def XInt.negInf : XInt := ⊥

/-- Value `float('inf')`. -/
def XInt.posInf : XInt := ((⊤ : WithTop Int) : XInt)

/-- Maximising branch of the `for child in node.children()` loop of
`alpha_beta_search`: make the child's move, recurse (through `recur`, the
search at one less depth with the flag flipped), fold with `max`, take the move
back, raise `alpha`, and stop on `alpha >= beta`.  The running `alpha`, the
running `value` and the best move list are threaded exactly as in the source;
the traced lists hold `Option Move` because Python appends `node.move`, which
is `None` at the root. -/
def ab_loop_max
    (recur : GameNode → XInt → XInt → GameField →
      Except SJError (XInt × List (Option Move) × GameField)) (β : XInt) :
    List GameNode → GameField → XInt → XInt → List (Option Move) →
      Except SJError (XInt × List (Option Move) × GameField)
  | [], gf, _, value, best => .ok (value, best, gf)
  | c :: rest, gf, α, value, best =>
      match c.move with
      | none => .error .missingFromPos
      | some m0 => do
          let (_, gf1, m1?) ← gf.make_move none none (some m0)
          let m1 := m1?.getD m0
          let (v, ml, gf2) ← recur { c with move := some m1 } α β gf1
          let value1 := max value v
          let (gf3, _) ← gf2.take_back m1
          let (α1, best1) := if α < value1 then (value1, ml) else (α, best)
          if β ≤ α1 then .ok (value1, best1, gf3)
          else ab_loop_max recur β rest gf3 α1 value1 best1

/-- Minimising branch of the child loop of `alpha_beta_search` (mirror image:
fold with `min`, lower `beta`). -/
def ab_loop_min
    (recur : GameNode → XInt → XInt → GameField →
      Except SJError (XInt × List (Option Move) × GameField)) (α : XInt) :
    List GameNode → GameField → XInt → XInt → List (Option Move) →
      Except SJError (XInt × List (Option Move) × GameField)
  | [], gf, _, value, best => .ok (value, best, gf)
  | c :: rest, gf, β, value, best =>
      match c.move with
      | none => .error .missingFromPos
      | some m0 => do
          let (_, gf1, m1?) ← gf.make_move none none (some m0)
          let m1 := m1?.getD m0
          let (v, ml, gf2) ← recur { c with move := some m1 } α β gf1
          let value1 := min value v
          let (gf3, _) ← gf2.take_back m1
          let (β1, best1) := if value1 < β then (value1, ml) else (β, best)
          if β1 ≤ α then .ok (value1, best1, gf3)
          else ab_loop_min recur α rest gf3 β1 value1 best1

/-- alpha_beta_search of `src/Searching.py`, with `depth` first so the
recursion is structural.  The result carries the value, the traced move list
(the source computes it in every call) and the threaded field. -/
def alpha_beta_search :
    Nat → GameNode → XInt → XInt → Bool → GameField →
      Except SJError (XInt × List (Option Move) × GameField)
  | 0, node, _, _, _, gf => .ok (XInt.ofInt gf.value, [node.move], gf)
  | d + 1, node, α, β, maxP, gf =>
      match node.children gf with
      | .error e => .error e
      | .ok (cs, gf0) =>
          let loopRes :=
            if maxP then
              ab_loop_max (fun c a b g => alpha_beta_search d c a b (!maxP) g)
                β cs gf0 α XInt.negInf []
            else
              ab_loop_min (fun c a b g => alpha_beta_search d c a b (!maxP) g)
                α cs gf0 β XInt.posInf []
          match loopRes with
          | .error e => .error e
          | .ok (value, best, gf1) =>
              let best1 :=
                match node.move with
                | some m => some m :: best
                | none => best
              if cs.isEmpty then .ok (XInt.ofInt gf1.value, best1, gf1)
              else .ok (value, best1, gf1)

/-- Modelled from the spec: child loop of the unpruned minimax reference
search that claim C1 compares `alpha_beta_search` against ("alpha-beta result
must equal unpruned minimax result for the same depth and starting position").
The loop makes each child's move, recurses, takes the move back and folds with
`max`/`min`, with no window and no cutoff. -/
def mm_loop
    (recur : GameNode → GameField → Except SJError (XInt × GameField))
    (maxP : Bool) :
    List GameNode → GameField → XInt → Except SJError (XInt × GameField)
  | [], gf, value => .ok (value, gf)
  | c :: rest, gf, value =>
      match c.move with
      | none => .error .missingFromPos
      | some m0 => do
          let (_, gf1, m1?) ← gf.make_move none none (some m0)
          let m1 := m1?.getD m0
          let (v, gf2) ← recur { c with move := some m1 } gf1
          let (gf3, _) ← gf2.take_back m1
          mm_loop recur maxP rest gf3 (if maxP then max value v else min value v)

/-- Modelled from the spec: unpruned minimax search of the same depth from the
same position, over the same ordered child enumeration as the alpha-beta
search. -/
def minimax_search :
    Nat → GameNode → Bool → GameField → Except SJError (XInt × GameField)
  | 0, _, _, gf => .ok (XInt.ofInt gf.value, gf)
  | d + 1, node, maxP, gf =>
      match node.children gf with
      | .error e => .error e
      | .ok (cs, gf0) =>
          match mm_loop (fun c g => minimax_search d c (!maxP) g) maxP cs gf0
              (if maxP then XInt.negInf else XInt.posInf) with
          | .error e => .error e
          | .ok (value, gf1) =>
              if cs.isEmpty then .ok (XInt.ofInt gf1.value, gf1)
              else .ok (value, gf1)

/-- Python list read `l[i]`: negative indices count from the end; `none`
models the `IndexError` for indices out of bounds on both sides. -/
def pyGetElem (l : List α) (i : Int) : Option α :=
  if 0 ≤ i then l.get? i.toNat
  else if (-i).toNat ≤ l.length then l.get? (l.length - (-i).toNat)
  else none

/-- Python list write `l[i] = a`, with the same index resolution as
`pyGetElem`. -/
def pySetElem (l : List α) (i : Int) (a : α) : Option (List α) :=
  if 0 ≤ i then if i.toNat < l.length then some (l.set i.toNat a) else none
  else if (-i).toNat ≤ l.length then some (l.set (l.length - (-i).toNat) a)
  else none

/-- Tower of the legacy top-level `GameOfSanJego.py` (owner stored as its own
attribute; `bricks` stands for its `structure` attribute, a Lean keyword). -/
structure TowerV0 where
  owner : Int
  bricks : List Int
deriving DecidableEq

/-- GameField of the legacy top-level `GameOfSanJego.py`.  Cells may hold raw
`None` because its `set_tower_at` stores the argument unconverted. -/
structure GameFieldV0 where
  height : Nat
  width : Nat
  player1 : Int
  player2 : Int
  field : List (Option TowerV0)
deriving DecidableEq

/-- Legacy constructor: `Tower((h + w) % 2)` with default players 0 and 1. -/
def GameFieldV0.init (height width : Nat) : GameFieldV0 :=
  { height := height, width := width, player1 := 0, player2 := 1,
    field := (List.range height).flatMap fun h =>
      (List.range width).map fun w =>
        some ⟨((h + w) % 2 : Nat), [((h + w) % 2 : Nat)]⟩ }

/-- Legacy range guard, kept with Python's operator precedence:
`not 0 <= pos[0] < self.height and 0 <= pos[1] < self.width` parses as
`(not (0 <= pos[0] < height)) and (0 <= pos[1] < width)`. -/
def GameFieldV0.guard_fails (gf : GameFieldV0) (pos : Pos) : Bool :=
  !(0 ≤ pos.1 && pos.1 < (gf.height : Int)) &&
    (0 ≤ pos.2 && pos.2 < (gf.width : Int))

/-- Legacy get_tower_at; the outer `none` models an `IndexError` reaching the
caller, the inner layer is the stored cell. -/
def GameFieldV0.get_tower_at (gf : GameFieldV0) (pos : Pos) :
    Option (Option TowerV0) :=
  if gf.guard_fails pos then some none
  else pyGetElem gf.field (pos.1 * gf.width + pos.2)

/-- Legacy set_tower_at; the outer `none` models an `IndexError`. -/
def GameFieldV0.set_tower_at (gf : GameFieldV0) (pos : Pos)
    (tower : Option TowerV0) : Option (Bool × GameFieldV0) :=
  if gf.guard_fails pos then some (false, gf)
  else
    (pySetElem gf.field (pos.1 * gf.width + pos.2) tower).map fun f =>
      (true, { gf with field := f })

/-- Field well-formedness: the cell list has one entry per board position and
every cell holds a tower object (possibly a unit tower).  Both parts hold for
every field the Python constructor can produce. -/
def GameField.inv (gf : GameField) : Prop :=
  gf.field.length = gf.height * gf.width ∧ ∀ t ∈ gf.field, t.isSome

/-- Nodes produced by `GameNode.children` from field `gf`: they carry a fresh
move that is either the skip sentinel or a move the active rule set allows. -/
def ChildOk (n : GameNode) (gf : GameField) (c : GameNode) : Prop :=
  ∃ m, c.move = some m ∧ m.from_tower = none ∧
    (m = Move.skip ∨
      allows_move n.rule_set_type gf (n.player gf) m.from_pos m.to_pos = true)

/-- Board of size 1x2 whose second cell was cleared to a unit tower (a state reachable
through `set_tower_at(pos, None)`). -/
def unit_target_field : GameField :=
  ((GameField.init 1 2 0 1).set_tower_at (0, 1) none).2

/-- Board of size 1x2 (checkerboard) used by the spec's forced-merge scenario. -/
def one_by_two : GameField := GameField.init 1 2 0 1

/-- Board of size 1x2 after the maximising player's forced merge. -/
def one_by_two_merged_max : GameField :=
  { height := 1, width := 2, player1 := 0, player2 := 1,
    field := [some [], some [0, 1]] }

/-- Board of size 1x2 after the minimising player's forced merge. -/
def one_by_two_merged_min : GameField :=
  { height := 1, width := 2, player1 := 0, player2 := 1,
    field := [some [1, 0], some []] }

example : (GameField.init 1 2 0 1).field = [some [0], some [1]] := by decide

example :
    (GameField.init 1 2 0 1).make_move none none (some (Move.mk2 (0, 0) (0, 1)))
      = .ok (true,
          { height := 1, width := 2, player1 := 0, player2 := 1,
            field := [some [], some [0, 1]] },
          some ⟨(0, 0), (0, 1), some [0]⟩) := by decide

/-! Basic list and field lemmas. -/

lemma list_set_of_get? {α : Type} {l : List α} {i : Nat} {a : α}
    (h : l.get? i = some a) : l.set i a = l := by
  induction l generalizing i with
  | nil => simp at h
  | cons x xs ih =>
      cases i with
      | zero =>
          have hx : x = a := by simpa using h
          simp [hx]
      | succ j =>
          have h2 : xs.get? j = some a := by simpa using h
          simp [ih h2]

lemma get_tower_at_eq_some {gf : GameField} {pos : Pos} {t : Tower}
    (h : gf.get_tower_at pos = some t) :
    gf.in_range pos = true ∧ gf.field.get? (gf.idx pos) = some (some t) := by
  unfold GameField.get_tower_at at h
  split at h
  case isTrue hr =>
    refine ⟨hr, ?_⟩
    cases hg : gf.field.get? (gf.idx pos) with
    | none =>
        have : gf.field.getD (gf.idx pos) none = none := by
          show (gf.field.get? (gf.idx pos)).getD none = none
          rw [hg]; rfl
        rw [this] at h; cases h
    | some x =>
        have : gf.field.getD (gf.idx pos) none = x := by
          show (gf.field.get? (gf.idx pos)).getD none = x
          rw [hg]; rfl
        rw [this] at h; rw [h]
  case isFalse => cases h

lemma get_idx_lt {gf : GameField} {pos : Pos} {t : Tower}
    (h : gf.get_tower_at pos = some t) : gf.idx pos < gf.field.length := by
  have h2 := (get_tower_at_eq_some h).2
  exact List.get?_eq_some.mp h2 |>.1

lemma in_range_spec {gf : GameField} {pos : Pos} (h : gf.in_range pos = true) :
    0 ≤ pos.1 ∧ pos.1 < (gf.height : Int) ∧ 0 ≤ pos.2 ∧ pos.2 < (gf.width : Int) := by
  unfold GameField.in_range at h
  simp only [Bool.and_eq_true, decide_eq_true_eq] at h
  tauto

lemma idx_inj {gf : GameField} {p q : Pos} (hp : gf.in_range p = true)
    (hq : gf.in_range q = true) (hne : p ≠ q) : gf.idx p ≠ gf.idx q := by
  obtain ⟨hp1, hp2, hp3, hp4⟩ := in_range_spec hp
  obtain ⟨hq1, hq2, hq3, hq4⟩ := in_range_spec hq
  intro heq
  unfold GameField.idx at heq
  have hpw : p.2.toNat < gf.width := by omega
  have hqw : q.2.toNat < gf.width := by omega
  have h2 : p.2.toNat = q.2.toNat := by
    have e1 : (p.1.toNat * gf.width + p.2.toNat) % gf.width = p.2.toNat := by
      rw [Nat.add_comm, Nat.add_mul_mod_self_right]; exact Nat.mod_eq_of_lt hpw
    have e2 : (q.1.toNat * gf.width + q.2.toNat) % gf.width = q.2.toNat := by
      rw [Nat.add_comm, Nat.add_mul_mod_self_right]; exact Nat.mod_eq_of_lt hqw
    rw [← e1, ← e2, heq]
  have h1 : p.1.toNat = q.1.toNat := by
    have hw : 0 < gf.width := by omega
    have : p.1.toNat * gf.width = q.1.toNat * gf.width := by omega
    exact Nat.eq_of_mul_eq_mul_right hw this
  apply hne
  have : p.1 = q.1 := by omega
  have : p.2 = q.2 := by omega
  exact Prod.ext (by omega) (by omega)

lemma move_reset_eq {m : Move} (h : m.from_tower = none) :
    ({ m with from_tower := none } : Move) = m := by
  cases m; simp_all

lemma skip_from_eq_to {m : Move} (h : m.is_skip_move = true) :
    m.from_pos = m.to_pos := by
  unfold Move.is_skip_move at h
  simp only [Bool.and_eq_true, decide_eq_true_eq] at h
  rw [h.1, h.2]

/-! Effect of one `make_move` on an allowed pair of towers, and the exact
round trip through `take_back`. -/

lemma in_range_update (gf : GameField) (X : List (Option Tower)) (pos : Pos) :
    ({ gf with field := X } : GameField).in_range pos = gf.in_range pos := rfl

lemma idx_update (gf : GameField) (X : List (Option Tower)) (pos : Pos) :
    ({ gf with field := X } : GameField).idx pos = gf.idx pos := rfl

lemma set_tower_at_in_range {gf : GameField} {pos : Pos} {t : Option Tower}
    (h : gf.in_range pos = true) :
    gf.set_tower_at pos t =
      (true, { gf with field := gf.field.set (gf.idx pos) (some (t.getD [])) }) := by
  unfold GameField.set_tower_at
  rw [h]
  simp

lemma make_move_allowed {gf : GameField} {m : Move} {top lower : Tower}
    (hft : m.from_tower = none) (hne : m.from_pos ≠ m.to_pos)
    (htop : gf.get_tower_at m.from_pos = some top)
    (hlow : gf.get_tower_at m.to_pos = some lower) :
    gf.make_move none none (some m) =
      .ok (true,
        { gf with field :=
            ((gf.field.set (gf.idx m.to_pos) (some (top ++ lower))).set (gf.idx m.from_pos) (some [])) },
        some { m with from_tower := some top }) := by
  have hskip : m.is_skip_move = false := by
    cases hs : m.is_skip_move with
    | false => rfl
    | true => exact absurd (skip_from_eq_to hs) hne
  have hmade : m.already_made = false := by
    unfold Move.already_made; rw [hft]; rfl
  have hrt := (get_tower_at_eq_some htop).1
  have hrl := (get_tower_at_eq_some hlow).1
  simp only [GameField.make_move, hskip, hmade, Bool.false_eq_true, if_false,
    GameField.make_move_go, if_neg hne, htop, hlow, GameField.set_tower_at,
    in_range_update, idx_update, hrt, hrl, if_true, Tower.move_on_top_of,
    Option.getD]
  rfl

lemma getD_of_get? {α : Type} {l : List (Option α)} {i : Nat} {x : Option α}
    (h : l.get? i = some x) : l.getD i none = x := by
  show (l.get? i).getD none = x
  rw [h]; rfl

lemma not_skip_of_ne {m : Move} (hne : m.from_pos ≠ m.to_pos) :
    m.is_skip_move = false := by
  cases hs : m.is_skip_move with
  | false => rfl
  | true => exact absurd (skip_from_eq_to hs) hne

lemma take_back_after {gf : GameField} {m : Move} {top lower : Tower}
    (hne : m.from_pos ≠ m.to_pos)
    (htop : gf.get_tower_at m.from_pos = some top)
    (hlow : gf.get_tower_at m.to_pos = some lower)
    (hlne : lower ≠ []) :
    GameField.take_back
      { gf with field :=
          ((gf.field.set (gf.idx m.to_pos) (some (top ++ lower))).set (gf.idx m.from_pos) (some [])) }
      { m with from_tower := some top } =
      .ok (gf, { m with from_tower := none }) := by
  have hrt := (get_tower_at_eq_some htop).1
  have hrl := (get_tower_at_eq_some hlow).1
  have hgF := (get_tower_at_eq_some htop).2
  have hgT := (get_tower_at_eq_some hlow).2
  have hiFlt : gf.idx m.from_pos < gf.field.length := get_idx_lt htop
  have hiTlt : gf.idx m.to_pos < gf.field.length := get_idx_lt hlow
  have hij : gf.idx m.from_pos ≠ gf.idx m.to_pos := idx_inj hrt hrl hne
  have hskip : m.is_skip_move = false := not_skip_of_ne hne
  set f2 : List (Option Tower) :=
    (gf.field.set (gf.idx m.to_pos) (some (top ++ lower))).set (gf.idx m.from_pos) (some []) with hf2
  have hlen2 : f2.length = gf.field.length := by simp [hf2]
  have hget_from : f2.get? (gf.idx m.from_pos) = some (some []) := by
    rw [hf2]
    exact List.get?_set_eq_of_lt _ (by simpa using hiFlt)
  have hget_to : f2.get? (gf.idx m.to_pos) = some (some (top ++ lower)) := by
    rw [hf2, List.get?_set_ne _ _ hij]
    exact List.get?_set_eq_of_lt _ (by simpa using hiTlt)
  have hGA_from :
      GameField.get_tower_at { gf with field := f2 } m.from_pos = some [] := by
    unfold GameField.get_tower_at
    rw [in_range_update, hrt, if_pos rfl, idx_update]
    exact getD_of_get? hget_from
  have hGA_to :
      GameField.get_tower_at { gf with field := f2 } m.to_pos = some (top ++ lower) := by
    unfold GameField.get_tower_at
    rw [in_range_update, hrl, if_pos rfl, idx_update]
    exact getD_of_get? hget_to
  have hnotlt : ¬ ((top ++ lower).height < (Tower.height top)) := by
    unfold Tower.height
    simp
  have hnoteq : ¬ (top = top ++ lower) := by
    intro h
    exact hlne (by simpa using h.symm)
  have hdetach : (top ++ lower).detach top = some lower := by
    unfold Tower.detach
    rw [if_pos (List.take_left top lower)]
    rw [List.drop_left]
  unfold GameField.take_back
  rw [show ({ m with from_tower := some top } : Move).is_skip_move = m.is_skip_move from rfl, hskip]
  simp only [Bool.false_eq_true, if_false]
  simp only [hGA_from, hGA_to]
  rw [show decide (Tower.height ([] : Tower) ≠ 0) = false from by decide]
  simp only [Bool.false_eq_true, if_false]
  rw [if_neg hnotlt, if_neg hnoteq, hdetach]
  simp only [GameField.set_tower_at, in_range_update, idx_update, hrt, hrl, if_true,
    Option.getD]
  have hfield :
      (f2.set (gf.idx m.to_pos) (some lower)).set (gf.idx m.from_pos) (some top) = gf.field := by
    rw [hf2, List.set_comm _ _ _ hij, List.set_set, List.set_set,
      list_set_of_get? hgT, list_set_of_get? hgF]
  show Except.ok (⟨gf.height, gf.width, gf.player1, gf.player2,
      (f2.set (gf.idx m.to_pos) (some lower)).set (gf.idx m.from_pos) (some top)⟩,
      { m with from_tower := none }) = Except.ok (gf, { m with from_tower := none })
  rw [hfield]

/-! Skip moves are no-ops for make_move and take_back. -/

lemma make_move_skip {gf : GameField} {m : Move} (h : m.is_skip_move = true) :
    gf.make_move none none (some m) = .ok (true, gf, some m) := by
  simp [GameField.make_move, h]

lemma take_back_skip {gf : GameField} {m : Move} (h : m.is_skip_move = true) :
    gf.take_back m = .ok (gf, m) := by
  simp [GameField.take_back, h]

/-! What an allowed move guarantees about the towers involved. -/

lemma basically_spec {gf : GameField} {fp tp : Pos} {t u : Tower}
    (h : basically_allows_move gf fp tp = some (t, u)) :
    fp ≠ tp ∧ gf.get_tower_at fp = some t ∧ t ≠ [] ∧
      gf.get_tower_at tp = some u ∧ u ≠ [] := by
  unfold basically_allows_move at h
  split at h
  · cases h
  · rename_i hne
    split at h
    · rename_i t0 u0 hf hl
      split at h
      · cases h
      · rename_i hh
        simp only [Bool.or_eq_true, decide_eq_true_eq, not_or] at hh
        cases h
        refine ⟨hne, hf, ?_, hl, ?_⟩
        · intro he; exact (by simpa [Tower.height, he] using hh.1)
        · intro he; exact (by simpa [Tower.height, he] using hh.2)
    · cases h

lemma allows_spec {rs : RuleSetT} {gf : GameField} {p : Int} {fp tp : Pos}
    (h : allows_move rs gf p fp tp = true) :
    ∃ t u, fp ≠ tp ∧ gf.get_tower_at fp = some t ∧ t ≠ [] ∧
      gf.get_tower_at tp = some u ∧ u ≠ [] := by
  unfold allows_move at h
  cases rs <;>
    (simp only at h
     split at h
     next => cases h
     next hb =>
       obtain ⟨hne, hf, ht, hl, hu⟩ := basically_spec hb
       exact ⟨_, _, hne, hf, ht, hl, hu⟩)

/-! The scan loop of `_children` restores the field after every candidate. -/

lemma children_step_ok {n : GameNode} {gf : GameField} {m : Move}
    (hft : m.from_tower = none)
    (ha : allows_move n.rule_set_type gf (n.player gf) m.from_pos m.to_pos = true) :
    ∃ hv, n.children_step gf m =
      .ok ((⟨n.rule_set_type, some m, !n.max_player, false⟩, hv), gf) := by
  obtain ⟨t, u, hne, htop, htne, hl, hu⟩ := allows_spec ha
  refine ⟨GameNode.heuristic_value
      ⟨n.rule_set_type, some { m with from_tower := some t }, !n.max_player, false⟩
      { gf with field :=
          ((gf.field.set (gf.idx m.to_pos) (some (t ++ u))).set (gf.idx m.from_pos) (some [])) },
    ?_⟩
  simp only [GameNode.children_step, bind, Except.bind,
    make_move_allowed hft hne htop hl, Option.getD,
    take_back_after hne htop hl hu, move_reset_eq hft, pure, Except.pure]

lemma candidate_moves_fresh {gf : GameField} :
    ∀ m ∈ candidate_moves gf, m.from_tower = none := by
  intro m hm
  unfold candidate_moves at hm
  simp only [List.mem_flatMap, List.mem_map] at hm
  obtain ⟨fp, _, tp, _, rfl⟩ := hm
  rfl

lemma children_aux_ok {n : GameNode} {gf : GameField} :
    ∀ ms : List Move, (∀ m ∈ ms, m.from_tower = none) →
      ∃ cs, n.children_aux ms gf = .ok (cs, gf) ∧
        ∀ x ∈ cs, ChildOk n gf x.1 := by
  intro ms
  induction ms with
  | nil => exact fun _ => ⟨[], rfl, by simp⟩
  | cons m ms ih =>
      intro hfresh
      obtain ⟨cs, hcs, hmem⟩ := ih fun m hm => hfresh m (List.mem_cons_of_mem _ hm)
      have hf : m.from_tower = none := hfresh m (List.mem_cons_self m ms)
      by_cases ha : allows_move n.rule_set_type gf (n.player gf) m.from_pos m.to_pos = true
      · obtain ⟨hv, hstep⟩ := children_step_ok hf ha
        refine ⟨(⟨n.rule_set_type, some m, !n.max_player, false⟩, hv) :: cs, ?_, ?_⟩
        · simp only [GameNode.children_aux, ha, if_true, bind, Except.bind, hstep, hcs,
            pure, Except.pure]
        · intro x hx
          rcases List.mem_cons.mp hx with hx | hx
          · subst hx
            exact ⟨m, rfl, hf, Or.inr ha⟩
          · exact hmem x hx
      · refine ⟨cs, ?_, hmem⟩
        have ha' : allows_move n.rule_set_type gf (n.player gf) m.from_pos m.to_pos = false :=
          by simpa using ha
        simp only [GameNode.children_aux, ha', Bool.false_eq_true, if_false, hcs]

lemma children_ok (n : GameNode) (gf : GameField) :
    ∃ cs, n.children gf = .ok (cs, gf) ∧ ∀ c ∈ cs, ChildOk n gf c := by
  obtain ⟨cs0, haux, hmem⟩ :=
    @children_aux_ok n gf (candidate_moves gf) candidate_moves_fresh
  by_cases hempty : (cs0.isEmpty && !n.skipped_before) = true
  · refine ⟨[⟨n.rule_set_type, some Move.skip, !n.max_player, true⟩], ?_, ?_⟩
    · simp only [GameNode.children, GameNode.children_unsorted, bind, Except.bind, pure,
        Except.pure]
      rw [haux]
      simp only [hempty, if_true]
      cases hmax : n.max_player <;> simp [List.insertionSort]
    · intro c hc
      rcases List.mem_singleton.mp hc with rfl
      exact ⟨Move.skip, rfl, rfl, Or.inl rfl⟩
  · have hempty' : (cs0.isEmpty && !n.skipped_before) = false := by simpa using hempty
    refine ⟨(if n.max_player then List.insertionSort (fun a b => b.2 ≤ a.2) cs0
        else List.insertionSort (fun a b => a.2 ≤ b.2) cs0).map Prod.fst, ?_, ?_⟩
    · simp only [GameNode.children, GameNode.children_unsorted, bind, Except.bind, pure,
        Except.pure]
      rw [haux]
      simp only [hempty', Bool.false_eq_true, if_false]
    · intro c hc
      rcases List.mem_map.mp hc with ⟨x, hx, rfl⟩
      have hx0 : x ∈ cs0 := by
        by_cases hmax : n.max_player
        · rw [if_pos hmax] at hx
          exact (List.perm_insertionSort _ cs0).mem_iff.mp hx
        · rw [if_neg hmax] at hx
          exact (List.perm_insertionSort _ cs0).mem_iff.mp hx
      exact hmem x hx0

lemma child_round {n : GameNode} {gf : GameField} {c : GameNode}
    (h : ChildOk n gf c) :
    ∃ m0 m1 gf1, c.move = some m0 ∧
      gf.make_move none none (some m0) = .ok (true, gf1, some m1) ∧
      gf1.take_back m1 = .ok (gf, { m0 with from_tower := none }) := by
  obtain ⟨m0, hcm, hft, hkind⟩ := h
  rcases hkind with rfl | ha
  · refine ⟨Move.skip, Move.skip, gf, hcm, ?_, ?_⟩
    · exact make_move_skip rfl
    · exact take_back_skip rfl
  · obtain ⟨t, u, hne, htop, htne, hl, hu⟩ := allows_spec ha
    exact ⟨m0, { m0 with from_tower := some t }, _, hcm,
      make_move_allowed hft hne htop hl, take_back_after hne htop hl hu⟩

lemma ab_loop_max_frame {β : XInt}
    {recur : GameNode → XInt → XInt → GameField →
      Except SJError (XInt × List (Option Move) × GameField)}
    (hrec : ∀ c a b g, ∃ v ml, recur c a b g = .ok (v, ml, g))
    {n : GameNode} {gf : GameField} :
    ∀ (cs : List GameNode) (α value : XInt) (best : List (Option Move)),
      (∀ c ∈ cs, ChildOk n gf c) →
      ∃ v ml, ab_loop_max recur β cs gf α value best = .ok (v, ml, gf) := by
  intro cs
  induction cs with
  | nil => exact fun α value best _ => ⟨value, best, rfl⟩
  | cons c cs ih =>
      intro α value best hmem
      obtain ⟨m0, m1, gf1, hcm, hmk, htb⟩ := child_round (hmem c (List.mem_cons_self c cs))
      obtain ⟨v, ml, hrec1⟩ := hrec { c with move := some m1 } α β gf1
      by_cases hup : α < max value v
      · by_cases hbr : β ≤ max value v
        · refine ⟨max value v, ml, ?_⟩
          simp only [ab_loop_max, hcm, hmk, bind, Except.bind, Option.getD, hrec1, htb,
            pure, Except.pure, if_pos hup, if_pos hbr]
        · obtain ⟨v2, ml2, h2⟩ := ih (max value v) (max value v) ml
            (fun c hc => hmem c (List.mem_cons_of_mem _ hc))
          refine ⟨v2, ml2, ?_⟩
          simp only [ab_loop_max, hcm, hmk, bind, Except.bind, Option.getD, hrec1, htb,
            pure, Except.pure, if_pos hup, if_neg hbr, h2]
      · by_cases hbr : β ≤ α
        · refine ⟨max value v, best, ?_⟩
          simp only [ab_loop_max, hcm, hmk, bind, Except.bind, Option.getD, hrec1, htb,
            pure, Except.pure, if_neg hup, if_pos hbr]
        · obtain ⟨v2, ml2, h2⟩ := ih α (max value v) best
            (fun c hc => hmem c (List.mem_cons_of_mem _ hc))
          refine ⟨v2, ml2, ?_⟩
          simp only [ab_loop_max, hcm, hmk, bind, Except.bind, Option.getD, hrec1, htb,
            pure, Except.pure, if_neg hup, if_neg hbr, h2]

lemma ab_loop_min_frame {α : XInt}
    {recur : GameNode → XInt → XInt → GameField →
      Except SJError (XInt × List (Option Move) × GameField)}
    (hrec : ∀ c a b g, ∃ v ml, recur c a b g = .ok (v, ml, g))
    {n : GameNode} {gf : GameField} :
    ∀ (cs : List GameNode) (β value : XInt) (best : List (Option Move)),
      (∀ c ∈ cs, ChildOk n gf c) →
      ∃ v ml, ab_loop_min recur α cs gf β value best = .ok (v, ml, gf) := by
  intro cs
  induction cs with
  | nil => exact fun β value best _ => ⟨value, best, rfl⟩
  | cons c cs ih =>
      intro β value best hmem
      obtain ⟨m0, m1, gf1, hcm, hmk, htb⟩ := child_round (hmem c (List.mem_cons_self c cs))
      obtain ⟨v, ml, hrec1⟩ := hrec { c with move := some m1 } α β gf1
      by_cases hup : min value v < β
      · by_cases hbr : min value v ≤ α
        · refine ⟨min value v, ml, ?_⟩
          simp only [ab_loop_min, hcm, hmk, bind, Except.bind, Option.getD, hrec1, htb,
            pure, Except.pure, if_pos hup, if_pos hbr]
        · obtain ⟨v2, ml2, h2⟩ := ih (min value v) (min value v) ml
            (fun c hc => hmem c (List.mem_cons_of_mem _ hc))
          refine ⟨v2, ml2, ?_⟩
          simp only [ab_loop_min, hcm, hmk, bind, Except.bind, Option.getD, hrec1, htb,
            pure, Except.pure, if_pos hup, if_neg hbr, h2]
      · by_cases hbr : β ≤ α
        · refine ⟨min value v, best, ?_⟩
          simp only [ab_loop_min, hcm, hmk, bind, Except.bind, Option.getD, hrec1, htb,
            pure, Except.pure, if_neg hup, if_pos hbr]
        · obtain ⟨v2, ml2, h2⟩ := ih β (min value v) best
            (fun c hc => hmem c (List.mem_cons_of_mem _ hc))
          refine ⟨v2, ml2, ?_⟩
          simp only [ab_loop_min, hcm, hmk, bind, Except.bind, Option.getD, hrec1, htb,
            pure, Except.pure, if_neg hup, if_neg hbr, h2]

lemma ab_frame :
    ∀ (d : Nat) (node : GameNode) (α β : XInt) (maxP : Bool) (gf : GameField),
      ∃ v ml, alpha_beta_search d node α β maxP gf = .ok (v, ml, gf) := by
  intro d
  induction d with
  | zero => exact fun node α β maxP gf => ⟨_, _, rfl⟩
  | succ d ih =>
      intro node α β maxP gf
      obtain ⟨cs, hcs, hmem⟩ := children_ok node gf
      cases maxP
      · have hrec : ∀ c a b g, ∃ v ml,
            alpha_beta_search d c a b true g = .ok (v, ml, g) :=
          fun c a b g => ih c a b true g
        obtain ⟨v, ml, hloop⟩ :=
          @ab_loop_min_frame α _ hrec node gf cs β XInt.posInf [] hmem
        simp only [alpha_beta_search, hcs, Bool.false_eq_true, if_false, Bool.not_false]
        rw [hloop]
        by_cases he : cs.isEmpty <;>
          simp only [he, if_true, Bool.false_eq_true, if_false] <;> exact ⟨_, _, rfl⟩
      · have hrec : ∀ c a b g, ∃ v ml,
            alpha_beta_search d c a b false g = .ok (v, ml, g) :=
          fun c a b g => ih c a b false g
        obtain ⟨v, ml, hloop⟩ :=
          @ab_loop_max_frame β _ hrec node gf cs α XInt.negInf [] hmem
        simp only [alpha_beta_search, hcs, if_true, Bool.not_true]
        rw [hloop]
        by_cases he : cs.isEmpty <;>
          simp only [he, if_true, Bool.false_eq_true, if_false] <;> exact ⟨_, _, rfl⟩

lemma mm_loop_frame {maxP : Bool}
    {recur : GameNode → GameField → Except SJError (XInt × GameField)}
    (hrec : ∀ c g, ∃ v, recur c g = .ok (v, g))
    {n : GameNode} {gf : GameField} :
    ∀ (cs : List GameNode) (value : XInt),
      (∀ c ∈ cs, ChildOk n gf c) →
      ∃ v1, mm_loop recur maxP cs gf value = .ok (v1, gf) ∧
        (maxP = true → value ≤ v1) ∧ (maxP = false → v1 ≤ value) := by
  intro cs
  induction cs with
  | nil => exact fun value _ => ⟨value, rfl, fun _ => le_refl _, fun _ => le_refl _⟩
  | cons c cs ih =>
      intro value hmem
      obtain ⟨m0, m1, gf1, hcm, hmk, htb⟩ := child_round (hmem c (List.mem_cons_self c cs))
      obtain ⟨v, hrec1⟩ := hrec { c with move := some m1 } gf1
      obtain ⟨v1, hrest, hmono1, hmono2⟩ :=
        ih (if maxP then max value v else min value v)
          (fun c hc => hmem c (List.mem_cons_of_mem _ hc))
      refine ⟨v1, ?_, ?_, ?_⟩
      · simp only [mm_loop, hcm, hmk, bind, Except.bind, Option.getD, hrec1, htb,
          pure, Except.pure, hrest]
      · intro hm
        have := hmono1 hm
        rw [hm] at this
        simp only [if_true] at this
        exact le_trans (le_max_left _ _) this
      · intro hm
        have := hmono2 hm
        rw [hm] at this
        simp only [Bool.false_eq_true, if_false] at this
        exact le_trans this (min_le_left _ _)

lemma mm_frame :
    ∀ (d : Nat) (node : GameNode) (maxP : Bool) (gf : GameField),
      ∃ v, minimax_search d node maxP gf = .ok (v, gf) := by
  intro d
  induction d with
  | zero => exact fun node maxP gf => ⟨_, rfl⟩
  | succ d ih =>
      intro node maxP gf
      obtain ⟨cs, hcs, hmem⟩ := children_ok node gf
      have hrec : ∀ c g, ∃ v, minimax_search d c (!maxP) g = .ok (v, g) :=
        fun c g => ih c (!maxP) g
      obtain ⟨v1, hloop, _, _⟩ :=
        @mm_loop_frame maxP _ hrec node gf cs
          (if maxP then XInt.negInf else XInt.posInf) hmem
      simp only [minimax_search, hcs]
      rw [hloop]
      by_cases he : cs.isEmpty <;>
        simp only [he, if_true, Bool.false_eq_true, if_false] <;> exact ⟨_, rfl⟩

/-! Lattice facts behind alpha-beta soundness: the loop preserves the minimax
value clamped into the search window. -/

lemma if_lt_max {γ : Type} [LinearOrder γ] (x y : γ) :
    (if x < y then y else x) = max x y := by
  by_cases h : x < y
  · rw [if_pos h, max_eq_right h.le]
  · rw [if_neg h, max_eq_left (not_lt.mp h)]

lemma if_lt_min {γ : Type} [LinearOrder γ] (x y : γ) :
    (if y < x then y else x) = min x y := by
  by_cases h : y < x
  · rw [if_pos h, min_eq_right h.le]
  · rw [if_neg h, min_eq_left (not_lt.mp h)]

lemma clamp_step_max {γ : Type} [LinearOrder γ] {α0 β a b r m : γ}
    (hB : max α0 (min β a) = max α0 (min β b))
    (hC : max (max α0 a) (min β r) = max (max α0 a) (min β m)) :
    max α0 (min β (max a r)) = max α0 (min β (max b m)) := by
  have hdist : ∀ x y : γ, min β (max x y) = max (min β x) (min β y) :=
    fun x y => min_max_distrib_left β x y
  rw [hdist, hdist, ← max_assoc, ← max_assoc, hB.symm]
  rcases le_or_lt a β with hle | hlt
  · rw [min_eq_right hle] at *
    exact hC
  · rw [min_eq_left hlt.le]
    have h1 : min β r ≤ max α0 β := le_trans (min_le_left _ _) (le_max_right _ _)
    have h2 : min β m ≤ max α0 β := le_trans (min_le_left _ _) (le_max_right _ _)
    rw [max_eq_left h1, max_eq_left h2]

lemma clamp_step_min {γ : Type} [LinearOrder γ] {α0 β a b r m : γ}
    (hB : max α0 (min β a) = max α0 (min β b))
    (hC : max α0 (min (min β a) r) = max α0 (min (min β a) m)) :
    max α0 (min β (min a r)) = max α0 (min β (min b m)) := by
  rw [← min_assoc, ← min_assoc]
  rw [hC]
  rcases le_or_lt α0 (min β a) with hXa | hXa
  · rcases le_or_lt α0 (min β b) with hXb | hXb
    · have hab : min β a = min β b := by
        have h1 : max α0 (min β a) = min β a := max_eq_right hXa
        have h2 : max α0 (min β b) = min β b := max_eq_right hXb
        rw [h1, h2] at hB
        exact hB
      rw [hab]
    · have h1 : max α0 (min β a) = min β a := max_eq_right hXa
      have h2 : max α0 (min β b) = α0 := max_eq_left hXb.le
      rw [h1, h2] at hB
      have hA : max α0 (min (min β a) m) = α0 := by
        rw [hB]
        exact max_eq_left (le_trans (min_le_left _ _) (le_refl _))
      have hBm : max α0 (min (min β b) m) = α0 :=
        max_eq_left (le_trans (min_le_left _ _) hXb.le)
      rw [hA, hBm]
  · have h1 : max α0 (min β a) = α0 := max_eq_left hXa.le
    rw [h1] at hB
    have hA : max α0 (min (min β a) m) = α0 :=
      max_eq_left (le_trans (min_le_left _ _) hXa.le)
    have hBle : min β b ≤ α0 := by
      by_contra hc
      push_neg at hc
      rw [max_eq_right hc.le] at hB
      exact absurd hB.symm (ne_of_gt hc)
    have hBm : max α0 (min (min β b) m) = α0 :=
      max_eq_left (le_trans (min_le_left _ _) hBle)
    rw [hA, hBm]

lemma ab_loop_max_mm {d : Nat} {α0 β : XInt} {n : GameNode}
    (hIH : ∀ (node : GameNode) (maxP : Bool) (gf : GameField) (a b : XInt), a < b →
      ∃ va ml vm, alpha_beta_search d node a b maxP gf = .ok (va, ml, gf) ∧
        minimax_search d node maxP gf = .ok (vm, gf) ∧
        max a (min b va) = max a (min b vm))
    (hαβ : α0 < β) :
    ∀ (cs : List GameNode) (gf : GameField) (va vm : XInt) (best : List (Option Move)),
      (∀ c ∈ cs, ChildOk n gf c) →
      max α0 va < β →
      max α0 (min β va) = max α0 (min β vm) →
      ∃ va1 ml1 vm1,
        ab_loop_max (fun c a b g => alpha_beta_search d c a b false g) β cs gf
          (max α0 va) va best = .ok (va1, ml1, gf) ∧
        mm_loop (fun c g => minimax_search d c false g) true cs gf vm = .ok (vm1, gf) ∧
        max α0 (min β va1) = max α0 (min β vm1) := by
  intro cs
  induction cs with
  | nil =>
      intro gf va vm best _ _ hclamp
      exact ⟨va, best, vm, rfl, rfl, hclamp⟩
  | cons c cs ih =>
      intro gf va vm best hmem hlt hclamp
      have hmemrest : ∀ x ∈ cs, ChildOk n gf x :=
        fun x hx => hmem x (List.mem_cons_of_mem _ hx)
      obtain ⟨m0, m1, gf1, hcm, hmk, htb⟩ := child_round (hmem c (List.mem_cons_self c cs))
      obtain ⟨r, mlr, mrec, hab_r, hmm_r, hclamp_r⟩ :=
        hIH { c with move := some m1 } false gf1 (max α0 va) β hlt
      have hval : max α0 (min β (max va r)) = max α0 (min β (max vm mrec)) :=
        clamp_step_max hclamp hclamp_r
      have hassoc : max (max α0 va) (max va r) = max α0 (max va r) := by
        rw [max_assoc, ← max_assoc va va r, max_self]
      by_cases hbr : β ≤ max α0 (max va r)
      · have hβva1 : β ≤ max va r := by
          by_contra hc
          push_neg at hc
          exact absurd hbr (not_le.mpr (max_lt hαβ hc))
        have hclampA : max α0 (min β (max va r)) = β := by
          rw [min_eq_left hβva1, max_eq_right hαβ.le]
        have hβvm1 : β ≤ max vm mrec := by
          by_contra hc
          push_neg at hc
          have h2 := hval
          rw [hclampA, min_eq_right hc.le] at h2
          exact absurd h2.symm (ne_of_lt (max_lt hαβ hc))
        obtain ⟨vmf, hmmrest, hmono, _⟩ :=
          @mm_loop_frame true _ (fun c g => mm_frame d c false g) n gf cs
            (max vm mrec) hmemrest
        have hβvmf : β ≤ vmf := le_trans hβvm1 (hmono rfl)
        refine ⟨max va r, (if max α0 va < max va r then mlr else best), vmf, ?_, ?_, ?_⟩
        · by_cases hup : max α0 va < max va r
          · simp only [ab_loop_max, hcm, hmk, bind, Except.bind, Option.getD, hab_r, htb,
              pure, Except.pure, if_pos hup, if_pos hβva1]
          · have hbr' : β ≤ max α0 va := by
              refine le_trans hbr (max_le (le_max_left _ _) (not_lt.mp hup))
            simp only [ab_loop_max, hcm, hmk, bind, Except.bind, Option.getD, hab_r, htb,
              pure, Except.pure, if_neg hup, if_pos hbr']
        · simp only [mm_loop, hcm, hmk, bind, Except.bind, Option.getD, hmm_r, htb,
            pure, Except.pure, if_pos rfl] at hmmrest ⊢
          exact hmmrest
        · rw [hclampA, min_eq_left hβvmf, max_eq_right hαβ.le]
      · have hlt1 : max α0 (max va r) < β := not_le.mp hbr
        obtain ⟨va2, ml2, vm2, hA, hM, hCl⟩ :=
          ih gf (max va r) (max vm mrec)
            (if max α0 va < max va r then mlr else best) hmemrest hlt1 hval
        refine ⟨va2, ml2, vm2, ?_, ?_, hCl⟩
        · by_cases hup : max α0 va < max va r
          · have hα1 : max α0 (max va r) = max va r := by
              rw [← hassoc, max_eq_right hup.le]
            have hnbr : ¬ β ≤ max va r := by
              rw [← hα1]; exact not_le.mpr hlt1
            simp only [ab_loop_max, hcm, hmk, bind, Except.bind, Option.getD, hab_r, htb,
              pure, Except.pure, if_pos hup, if_neg hnbr]
            rw [hα1] at hA
            simp only [if_pos hup] at hA
            exact hA
          · have hα1 : max α0 (max va r) = max α0 va := by
              refine le_antisymm (max_le (le_max_left _ _) (not_lt.mp hup))
                (max_le_max (le_refl _) (le_max_left va r))
            have hnbr : ¬ β ≤ max α0 va := not_le.mpr hlt
            simp only [ab_loop_max, hcm, hmk, bind, Except.bind, Option.getD, hab_r, htb,
              pure, Except.pure, if_neg hup, if_neg hnbr]
            rw [hα1] at hA
            simp only [if_neg hup] at hA
            exact hA
        · simp only [mm_loop, hcm, hmk, bind, Except.bind, Option.getD, hmm_r, htb,
            pure, Except.pure, if_pos rfl]
          exact hM

lemma ab_loop_min_mm {d : Nat} {α0 β0 : XInt} {n : GameNode}
    (hIH : ∀ (node : GameNode) (maxP : Bool) (gf : GameField) (a b : XInt), a < b →
      ∃ va ml vm, alpha_beta_search d node a b maxP gf = .ok (va, ml, gf) ∧
        minimax_search d node maxP gf = .ok (vm, gf) ∧
        max a (min b va) = max a (min b vm))
    (hαβ : α0 < β0) :
    ∀ (cs : List GameNode) (gf : GameField) (va vm : XInt) (best : List (Option Move)),
      (∀ c ∈ cs, ChildOk n gf c) →
      α0 < min β0 va →
      max α0 (min β0 va) = max α0 (min β0 vm) →
      ∃ va1 ml1 vm1,
        ab_loop_min (fun c a b g => alpha_beta_search d c a b true g) α0 cs gf
          (min β0 va) va best = .ok (va1, ml1, gf) ∧
        mm_loop (fun c g => minimax_search d c true g) false cs gf vm = .ok (vm1, gf) ∧
        max α0 (min β0 va1) = max α0 (min β0 vm1) := by
  intro cs
  induction cs with
  | nil =>
      intro gf va vm best _ _ hclamp
      exact ⟨va, best, vm, rfl, rfl, hclamp⟩
  | cons c cs ih =>
      intro gf va vm best hmem hlt hclamp
      have hmemrest : ∀ x ∈ cs, ChildOk n gf x :=
        fun x hx => hmem x (List.mem_cons_of_mem _ hx)
      obtain ⟨m0, m1, gf1, hcm, hmk, htb⟩ := child_round (hmem c (List.mem_cons_self c cs))
      obtain ⟨r, mlr, mrec, hab_r, hmm_r, hclamp_r⟩ :=
        hIH { c with move := some m1 } true gf1 α0 (min β0 va) hlt
      have hval : max α0 (min β0 (min va r)) = max α0 (min β0 (min vm mrec)) :=
        clamp_step_min hclamp hclamp_r
      have hassoc : min (min β0 va) (min va r) = min β0 (min va r) := by
        rw [min_assoc, ← min_assoc va va r, min_self]
      by_cases hbr : min β0 (min va r) ≤ α0
      · have hva1α : min va r ≤ α0 := by
          by_contra hc
          push_neg at hc
          exact absurd hbr (not_le.mpr (lt_min hαβ hc))
        have hclampA : max α0 (min β0 (min va r)) = α0 :=
          max_eq_left (le_trans (min_le_right _ _) hva1α)
        have hvm1 : min β0 (min vm mrec) ≤ α0 := by
          by_contra hc
          push_neg at hc
          have h2 := hval
          rw [hclampA, max_eq_right hc.le] at h2
          exact absurd h2 (ne_of_lt hc)
        obtain ⟨vmf, hmmrest, _, hmono⟩ :=
          @mm_loop_frame false _ (fun c g => mm_frame d c true g) n gf cs
            (min vm mrec) hmemrest
        have hvmfα : min β0 vmf ≤ α0 :=
          le_trans (min_le_min (le_refl _) (hmono rfl)) hvm1
        refine ⟨min va r, (if min va r < min β0 va then mlr else best), vmf, ?_, ?_, ?_⟩
        · by_cases hup : min va r < min β0 va
          · simp only [ab_loop_min, hcm, hmk, bind, Except.bind, Option.getD, hab_r, htb,
              pure, Except.pure, if_pos hup, if_pos hva1α]
          · have hbr' : min β0 va ≤ α0 :=
              le_trans (le_min (min_le_left _ _) (not_lt.mp hup)) hbr
            simp only [ab_loop_min, hcm, hmk, bind, Except.bind, Option.getD, hab_r, htb,
              pure, Except.pure, if_neg hup, if_pos hbr']
        · simp only [mm_loop, hcm, hmk, bind, Except.bind, Option.getD, hmm_r, htb,
            pure, Except.pure, Bool.false_eq_true, if_false] at hmmrest ⊢
          exact hmmrest
        · rw [hclampA, max_eq_left hvmfα]
      · have hlt1 : α0 < min β0 (min va r) := not_le.mp hbr
        obtain ⟨va2, ml2, vm2, hA, hM, hCl⟩ :=
          ih gf (min va r) (min vm mrec)
            (if min va r < min β0 va then mlr else best) hmemrest hlt1 hval
        refine ⟨va2, ml2, vm2, ?_, ?_, hCl⟩
        · by_cases hup : min va r < min β0 va
          · have hβ1 : min β0 (min va r) = min va r := by
              rw [← hassoc, min_eq_right hup.le]
            have hnbr : ¬ min va r ≤ α0 := by
              rw [← hβ1]; exact not_le.mpr hlt1
            simp only [ab_loop_min, hcm, hmk, bind, Except.bind, Option.getD, hab_r, htb,
              pure, Except.pure, if_pos hup, if_neg hnbr]
            rw [hβ1] at hA
            simp only [if_pos hup] at hA
            exact hA
          · have hβ1 : min β0 (min va r) = min β0 va :=
              le_antisymm (min_le_min (le_refl _) (min_le_left va r))
                (le_min (min_le_left _ _) (not_lt.mp hup))
            have hnbr : ¬ min β0 va ≤ α0 := not_le.mpr hlt
            simp only [ab_loop_min, hcm, hmk, bind, Except.bind, Option.getD, hab_r, htb,
              pure, Except.pure, if_neg hup, if_neg hnbr]
            rw [hβ1] at hA
            simp only [if_neg hup] at hA
            exact hA
        · simp only [mm_loop, hcm, hmk, bind, Except.bind, Option.getD, hmm_r, htb,
            pure, Except.pure, Bool.false_eq_true, if_false]
          exact hM

lemma min_posInf_right (x : XInt) : min x XInt.posInf = x := min_eq_left le_top

lemma max_negInf_right (x : XInt) : max x XInt.negInf = x := max_eq_left bot_le

lemma ab_mm :
    ∀ (d : Nat) (node : GameNode) (maxP : Bool) (gf : GameField) (α β : XInt), α < β →
      ∃ va ml vm, alpha_beta_search d node α β maxP gf = .ok (va, ml, gf) ∧
        minimax_search d node maxP gf = .ok (vm, gf) ∧
        max α (min β va) = max α (min β vm) := by
  intro d
  induction d with
  | zero => exact fun node maxP gf α β _ => ⟨_, _, _, rfl, rfl, rfl⟩
  | succ d ih =>
      intro node maxP gf α β hαβ
      obtain ⟨cs, hcs, hmem⟩ := children_ok node gf
      by_cases he : cs.isEmpty
      · obtain rfl : cs = [] := List.isEmpty_iff.mp he
        cases maxP
        · refine ⟨XInt.ofInt gf.value,
            (match node.move with | some m => [some m] | none => []),
            XInt.ofInt gf.value, ?_, ?_, rfl⟩
          · simp only [alpha_beta_search, hcs, Bool.false_eq_true, if_false, Bool.not_false]
            rfl
          · simp only [minimax_search, hcs]
            rfl
        · refine ⟨XInt.ofInt gf.value,
            (match node.move with | some m => [some m] | none => []),
            XInt.ofInt gf.value, ?_, ?_, rfl⟩
          · simp only [alpha_beta_search, hcs, if_true, Bool.not_true]
            rfl
          · simp only [minimax_search, hcs]
            rfl
      · have he' : cs.isEmpty = false := by simpa using he
        cases maxP
        · have hstart : α < min β XInt.posInf :=
            lt_min hαβ (lt_of_lt_of_le hαβ le_top)
          obtain ⟨va1, ml1, vm1, hA, hM, hCl⟩ :=
            @ab_loop_min_mm d α β node ih hαβ cs gf XInt.posInf XInt.posInf [] hmem hstart rfl
          rw [show min β XInt.posInf = β from min_eq_left (le_top)] at hA
          refine ⟨va1,
            (match node.move with | some m => some m :: ml1 | none => ml1),
            vm1, ?_, ?_, hCl⟩
          · simp only [alpha_beta_search, hcs, Bool.false_eq_true, if_false, Bool.not_false]
            rw [hA]
            simp only [he', Bool.false_eq_true, if_false]
          · simp only [minimax_search, hcs, Bool.false_eq_true, if_false, Bool.not_false]
            rw [hM]
            simp only [he', Bool.false_eq_true, if_false]
        · obtain ⟨va1, ml1, vm1, hA, hM, hCl⟩ :=
            @ab_loop_max_mm d α β node ih hαβ cs gf XInt.negInf XInt.negInf [] hmem
              (by
                refine lt_of_le_of_lt (le_of_eq (max_eq_left bot_le)) ?_
                exact hαβ)
              rfl
          rw [show max α XInt.negInf = α from max_eq_left (bot_le)] at hA
          refine ⟨va1,
            (match node.move with | some m => some m :: ml1 | none => ml1),
            vm1, ?_, ?_, hCl⟩
          · simp only [alpha_beta_search, hcs, if_true, Bool.not_true]
            rw [hA]
            simp only [he', Bool.false_eq_true, if_false]
          · simp only [minimax_search, hcs, if_true, Bool.not_true]
            rw [hM]
            simp only [he', Bool.false_eq_true, if_false]

/-- Claim C1: for every starting GameNode (hence every rule-set variant),
every depth and either player to move, `alpha_beta_search` with the default
window (alpha = -infinity, beta = +infinity) returns the same value as the
unpruned minimax search `minimax_search` of the same depth from the same
position, and both leave the threaded field unchanged. -/
theorem claim_C1_alpha_beta_equals_minimax
    (d : Nat) (node : GameNode) (maxP : Bool) (gf : GameField) :
    ∃ v ml, alpha_beta_search d node XInt.negInf XInt.posInf maxP gf = .ok (v, ml, gf) ∧
      minimax_search d node maxP gf = .ok (v, gf) := by
  obtain ⟨va, ml, vm, hA, hM, hCl⟩ :=
    ab_mm d node maxP gf XInt.negInf XInt.posInf (by decide)
  have h1 : max XInt.negInf (min XInt.posInf va) = va := by
    show max (⊥ : XInt) (min (⊤ : XInt) va) = va
    rw [min_eq_right le_top, max_eq_right bot_le]
  have h2 : max XInt.negInf (min XInt.posInf vm) = vm := by
    show max (⊥ : XInt) (min (⊤ : XInt) vm) = vm
    rw [min_eq_right le_top, max_eq_right bot_le]
  rw [h1, h2] at hCl
  subst hCl
  exact ⟨va, ml, hA, hM⟩

/-- Claim C3: every call to `alpha_beta_search` and every full enumeration of
a GameNode's children leaves the shared GameField structurally equal to its
state at entry.  In the embedded loops this holds because each explored
child's move is applied just before the recursive call and taken back right
after it returns, and a cutoff exits the loop returning the threaded state
without touching the remaining (pruned) children. -/
theorem claim_C3_search_preserves_field
    (n : GameNode) (gf : GameField) (d : Nat) (α β : XInt) (maxP : Bool) :
    (∃ cs, n.children gf = .ok (cs, gf)) ∧
    (∃ v ml, alpha_beta_search d n α β maxP gf = .ok (v, ml, gf)) := by
  constructor
  · obtain ⟨cs, h, _⟩ := children_ok n gf
    exact ⟨cs, h⟩
  · exact ab_frame d n α β maxP gf

lemma basically_intro {gf : GameField} {fp tp : Pos} {t u : Tower}
    (hne : fp ≠ tp) (hf : gf.get_tower_at fp = some t) (ht : t ≠ [])
    (hl : gf.get_tower_at tp = some u) (hu : u ≠ []) :
    basically_allows_move gf fp tp = some (t, u) := by
  unfold basically_allows_move
  rw [if_neg hne, hf, hl]
  have h1 : (decide (Tower.height t = 0) || decide (Tower.height u = 0)) = false := by
    simp [Tower.height]
    exact ⟨by simpa using ht, by simpa using hu⟩
  simp only [h1, Bool.false_eq_true, if_false]

/-- Claim C6: `MajorityRuleSet.allows_move` permits a move exactly when the
base legality gate passes (both positions hold towers of height > 0 and are
distinct — lookups succeeding implies both are in range), the positions are
4-neighbours (Manhattan distance exactly 1), and the player holds at least
50 percent of the mover tower's tags; no condition mentions the top tag's
owner. -/
theorem claim_C6_majority_rule_characterisation
    (gf : GameField) (player : Int) (fp tp : Pos) :
    allows_move .majority gf player fp tp = true ↔
      ∃ t u, gf.get_tower_at fp = some t ∧ gf.get_tower_at tp = some u ∧
        fp ≠ tp ∧ 0 < t.length ∧ 0 < u.length ∧
        (fp.1 - tp.1).natAbs + (fp.2 - tp.2).natAbs = 1 ∧
        t.length ≤ 2 * t.count player := by
  constructor
  · intro h
    simp only [allows_move] at h
    split at h
    next => cases h
    next hb =>
      obtain ⟨hne, hf, ht, hl, hu⟩ := basically_spec hb
      simp only [Bool.and_eq_true, check_quad_neighbourhood, decide_eq_true_eq,
        Bool.not_eq_true', decide_eq_false_iff_not, not_lt, Tower.height] at h
      refine ⟨_, _, hf, hl, hne, ?_, ?_, ?_, h.2⟩
      · exact List.length_pos.mpr ht
      · exact List.length_pos.mpr hu
      · have hd0 : ¬((fp.1 - tp.1).natAbs = 0 ∧ (fp.2 - tp.2).natAbs = 0) := by
          rintro ⟨h1, h2⟩
          apply hne
          have e1 : fp.1 = tp.1 := by omega
          have e2 : fp.2 = tp.2 := by omega
          exact Prod.ext e1 e2
        omega
  · rintro ⟨t, u, hf, hl, hne, ht, hu, hdist, hshare⟩
    have hb : basically_allows_move gf fp tp = some (t, u) :=
      basically_intro hne hf (List.length_pos.mp ht) hl (List.length_pos.mp hu)
    simp only [allows_move, hb]
    simp only [Bool.and_eq_true, check_quad_neighbourhood, decide_eq_true_eq,
      Bool.not_eq_true', decide_eq_false_iff_not, not_lt, Tower.height]
    exact ⟨by omega, hshare⟩

/-- Claim C5: for a GameNode whose player to move has zero legal moves under
the active rule set, `children` yields exactly one synthetic skip child with
the field unchanged when the node was not itself reached via a skip, and no
children at all when the previous ply was already a skip. -/
theorem claim_C5_skip_and_terminal (n : GameNode) (gf : GameField)
    (hnolegal : ∀ fp tp : Pos,
      allows_move n.rule_set_type gf (n.player gf) fp tp = false) :
    (n.skipped_before = false →
      n.children gf =
        .ok ([⟨n.rule_set_type, some Move.skip, !n.max_player, true⟩], gf)) ∧
    (n.skipped_before = true → n.children gf = .ok ([], gf)) := by
  have haux : n.children_aux (candidate_moves gf) gf = .ok ([], gf) := by
    generalize candidate_moves gf = ms
    induction ms with
    | nil => rfl
    | cons m ms ih =>
        simp only [GameNode.children_aux, hnolegal m.from_pos m.to_pos,
          Bool.false_eq_true, if_false, ih]
  constructor
  · intro hsk
    simp only [GameNode.children, GameNode.children_unsorted, bind, Except.bind, pure,
      Except.pure]
    rw [haux]
    simp only [hsk, List.isEmpty_nil, Bool.not_false, Bool.and_self, if_true]
    cases hmax : n.max_player <;> simp [List.insertionSort]
  · intro hsk
    simp only [GameNode.children, GameNode.children_unsorted, bind, Except.bind, pure,
      Except.pure]
    rw [haux]
    simp [hsk]

lemma one_by_one_in_range {pos : Pos}
    (h : (GameField.init 1 1 0 1).in_range pos = true) : pos = (0, 0) := by
  obtain ⟨h1, h2, h3, h4⟩ := in_range_spec h
  have e1 : ((GameField.init 1 1 0 1).height : Int) = 1 := rfl
  have e2 : ((GameField.init 1 1 0 1).width : Int) = 1 := rfl
  rw [e1] at h2
  rw [e2] at h4
  exact Prod.ext (by omega) (by omega)

lemma one_by_one_no_moves :
    ∀ fp tp : Pos,
      allows_move (GameNode.mk .base none true false).rule_set_type
        (GameField.init 1 1 0 1)
        ((GameNode.mk .base none true false).player (GameField.init 1 1 0 1)) fp tp
        = false := by
  intro fp tp
  by_contra hc
  have h : allows_move .base (GameField.init 1 1 0 1) 0 fp tp = true := by
    cases ha : allows_move (GameNode.mk .base none true false).rule_set_type
        (GameField.init 1 1 0 1)
        ((GameNode.mk .base none true false).player (GameField.init 1 1 0 1)) fp tp
    · exact absurd ha hc
    · exact ha
  obtain ⟨t, u, hne, hf, _, hl, _⟩ := allows_spec h
  have e1 : fp = (0, 0) := one_by_one_in_range (get_tower_at_eq_some hf).1
  have e2 : tp = (0, 0) := one_by_one_in_range (get_tower_at_eq_some hl).1
  exact hne (e1.trans e2.symm)

/-- Claim C5 witness: on the 1x1 board the player to move has no legal move,
and a node not reached via a skip produces exactly the skip child with the
field unchanged. -/
theorem claim_C5_skip_and_terminal_witness :
    (GameNode.mk .base none true false).children (GameField.init 1 1 0 1) =
      .ok ([⟨.base, some Move.skip, false, true⟩], GameField.init 1 1 0 1) :=
  (claim_C5_skip_and_terminal (GameNode.mk .base none true false)
    (GameField.init 1 1 0 1) one_by_one_no_moves).1 rfl

/-! Field invariant: established by the constructor, preserved by every
mutating operation. -/

lemma inv_init (h w : Nat) (p1 p2 : Int) : (GameField.init h w p1 p2).inv := by
  constructor
  · show ((List.range h).flatMap fun x =>
      (List.range w).map fun y => some [if (x + y) % 2 = 0 then p1 else p2]).length = h * w
    induction h with
    | zero => simp
    | succ n ih =>
        rw [List.range_succ, List.flatMap_append, List.length_append, ih]
        simp [Nat.succ_mul]
  · intro t ht
    simp only [GameField.init, List.mem_flatMap, List.mem_map] at ht
    obtain ⟨x, _, y, _, rfl⟩ := ht
    rfl

lemma inv_set {gf : GameField} (pos : Pos) (t : Option Tower) (hinv : gf.inv) :
    (gf.set_tower_at pos t).2.inv := by
  unfold GameField.set_tower_at
  split
  · refine ⟨by simpa using hinv.1, ?_⟩
    intro x hx
    rcases List.mem_or_eq_of_mem_set hx with hx | rfl
    · exact hinv.2 x hx
    · rfl
  · exact hinv

lemma inv_go {gf : GameField} (fp tp : Pos) (m? : Option Move) (hinv : gf.inv) :
    (gf.make_move_go fp tp m?).2.1.inv := by
  unfold GameField.make_move_go
  split
  · exact hinv
  · split
    · exact inv_set _ _ (inv_set _ _ hinv)
    · exact hinv

lemma inv_make {gf : GameField} {fp tp : Option Pos} {mv : Option Move}
    {r : Bool × GameField × Option Move} (hinv : gf.inv)
    (h : gf.make_move fp tp mv = .ok r) : r.2.1.inv := by
  unfold GameField.make_move at h
  split at h
  · split at h
    · cases h; exact hinv
    · split at h
      · cases h
      · cases h; exact inv_go _ _ _ hinv
  · split at h
    · cases h
    · split at h
      · cases h
      · cases h; exact inv_go _ _ _ hinv

lemma inv_take {gf : GameField} {m : Move} {r : GameField × Move} (hinv : gf.inv) :
    gf.take_back m = .ok r → r.1.inv := by
  unfold GameField.take_back
  split
  · intro h; cases h; exact hinv
  · split
    · intro h; cases h
    · rename_i ft hft
      cases hf : gf.get_tower_at m.from_pos
      case none =>
        simp only [hf]
        cases ht : gf.get_tower_at m.to_pos
        case none =>
          simp only [ht, Bool.false_eq_true, if_false]
          intro h; cases h
        case some tt =>
          simp only [ht, Bool.false_eq_true, if_false]
          split
          · intro h; cases h
          · split
            · intro h; cases h
            · split
              · intro h; cases h
              · intro h
                cases h
                exact inv_set _ _ (inv_set _ _ hinv)
      case some t =>
        simp only [hf]
        by_cases hh : Tower.height t ≠ 0
        · rw [if_pos (by simpa using hh)]
          intro h; cases h
        · rw [if_neg (by simpa using hh)]
          cases ht : gf.get_tower_at m.to_pos
          · simp only [ht]
            intro h; cases h
          · simp only [ht]
            split
            · intro h; cases h
            · split
              · intro h; cases h
              · split
                · intro h; cases h
                · intro h
                  cases h
                  exact inv_set _ _ (inv_set _ _ hinv)

lemma inv_idx_lt {gf : GameField} {pos : Pos} (hinv : gf.inv)
    (hr : gf.in_range pos = true) : gf.idx pos < gf.field.length := by
  obtain ⟨h1, h2, h3, h4⟩ := in_range_spec hr
  rw [hinv.1]
  unfold GameField.idx
  have hx : pos.1.toNat < gf.height := by omega
  have hy : pos.2.toNat < gf.width := by omega
  calc pos.1.toNat * gf.width + pos.2.toNat
      < pos.1.toNat * gf.width + gf.width := by omega
    _ = (pos.1.toNat + 1) * gf.width := by ring
    _ ≤ gf.height * gf.width := Nat.mul_le_mul_right _ (by omega)

lemma inv_get_some {gf : GameField} {pos : Pos} (hinv : gf.inv)
    (hr : gf.in_range pos = true) : ∃ t, gf.get_tower_at pos = some t := by
  have hlt := inv_idx_lt hinv hr
  cases hx : gf.field.get? (gf.idx pos) with
  | none =>
      have := List.get?_eq_none.mp hx
      omega
  | some x =>
      have hmem : x ∈ gf.field := List.get?_mem hx
      obtain ⟨t, rfl⟩ := Option.isSome_iff_exists.mp (hinv.2 x hmem)
      refine ⟨t, ?_⟩
      unfold GameField.get_tower_at
      rw [hr, if_pos rfl]
      exact getD_of_get? hx

/-- Claim C8: every in-range position of a well-formed field holds a tower
object (lookups never return absent), and the well-formedness invariant is
established by the constructor and preserved by `set_tower_at` (writing
absent stores a unit tower), `make_move`, and `take_back`. -/
theorem claim_C8_cell_invariant :
    (∀ (h w : Nat) (p1 p2 : Int), (GameField.init h w p1 p2).inv) ∧
    (∀ (gf : GameField) (pos : Pos) (t : Option Tower), gf.inv →
      (gf.set_tower_at pos t).2.inv) ∧
    (∀ (gf : GameField) (fp tp : Option Pos) (mv : Option Move)
        (r : Bool × GameField × Option Move), gf.inv →
      gf.make_move fp tp mv = .ok r → r.2.1.inv) ∧
    (∀ (gf : GameField) (m : Move) (r : GameField × Move), gf.inv →
      gf.take_back m = .ok r → r.1.inv) ∧
    (∀ (gf : GameField) (pos : Pos), gf.inv → gf.in_range pos = true →
      ∃ t, gf.get_tower_at pos = some t) :=
  ⟨inv_init, fun _ pos t hinv => inv_set pos t hinv,
    fun _ _ _ _ _ hinv h => inv_make hinv h,
    fun _ _ _ hinv h => inv_take hinv h,
    fun _ _ hinv hr => inv_get_some hinv hr⟩

/-- Claim C8 witness: the invariant holds for a concrete constructed field,
survives a concrete clearing write, and a concrete in-range lookup succeeds. -/
theorem claim_C8_cell_invariant_witness :
    (GameField.init 2 2 0 1).inv ∧
    ((GameField.init 2 2 0 1).set_tower_at (0, 1) none).2.inv ∧
    ∃ t, (GameField.init 2 2 0 1).get_tower_at (1, 1) = some t :=
  ⟨claim_C8_cell_invariant.1 2 2 0 1,
    claim_C8_cell_invariant.2.1 (GameField.init 2 2 0 1) (0, 1) none
      (claim_C8_cell_invariant.1 2 2 0 1),
    claim_C8_cell_invariant.2.2.2.2 (GameField.init 2 2 0 1) (1, 1)
      (claim_C8_cell_invariant.1 2 2 0 1) (by decide)⟩

lemma get_skip_pos_none (gf : GameField) : gf.get_tower_at (-1, -1) = none := by
  unfold GameField.get_tower_at GameField.in_range
  simp

/-- Claim C2 (amended): for every Move successfully applied via `make_move`
whose target position held a non-empty tower, `take_back` restores the field
to a state structurally equal to its pre-move state and resets the Move to
the unmade state (`from_tower = none`).  (The non-empty-target hypothesis is
forced: a successful move onto a unit tower makes `take_back` raise the
"can not take back a whole tower" error, see the counterexample.) -/
theorem claim_C2_make_take_back_round_trip
    (gf : GameField) (m : Move) (u : Tower) (gf1 : GameField) (m1 : Move)
    (hl : gf.get_tower_at m.to_pos = some u) (hu : u ≠ [])
    (hmk : gf.make_move none none (some m) = .ok (true, gf1, some m1)) :
    gf1.take_back m1 = .ok (gf, { m with from_tower := none }) := by
  cases hskip : m.is_skip_move
  case true =>
    exfalso
    have h2 : m.to_pos = (-1, -1) := by
      unfold Move.is_skip_move at hskip
      simp only [Bool.and_eq_true, decide_eq_true_eq] at hskip
      exact hskip.2
    rw [h2, get_skip_pos_none] at hl
    cases hl
  case false =>
    cases hft : m.from_tower with
    | some ft =>
        have hmade : m.already_made = true := by
          unfold Move.already_made; rw [hft]; rfl
        have : gf.make_move none none (some m) = .error .alreadyMade := by
          simp [GameField.make_move, hskip, hmade]
        rw [this] at hmk
        cases hmk
    | none =>
        by_cases hne : m.from_pos = m.to_pos
        · have : gf.make_move none none (some m) = .ok (false, gf, some m) := by
            have hmade : m.already_made = false := by
              unfold Move.already_made; rw [hft]; rfl
            simp [GameField.make_move, hskip, hmade, GameField.make_move_go, hne]
          rw [this] at hmk
          simp at hmk
        · cases hf : gf.get_tower_at m.from_pos with
          | none =>
              have hmade : m.already_made = false := by
                unfold Move.already_made; rw [hft]; rfl
              have : gf.make_move none none (some m) = .ok (false, gf, some m) := by
                simp [GameField.make_move, hskip, hmade, GameField.make_move_go,
                  if_neg hne, hf]
              rw [this] at hmk
              simp at hmk
          | some t =>
              have hmk2 := make_move_allowed hft hne hf hl
              rw [hmk2] at hmk
              simp only [Except.ok.injEq, Prod.mk.injEq, Option.some.injEq, true_and] at hmk
              obtain ⟨hgf1, hm1⟩ := hmk
              rw [← hgf1, ← hm1]
              exact take_back_after hne hf hl hu

/-- Claim C2 counterexample: on a 1x2 board whose second cell is a unit
tower, the move (0,0) to (0,1) is applied successfully by `make_move`, but
`take_back` then raises the whole-tower error instead of restoring the
field. -/
theorem claim_C2_counterexample :
    unit_target_field.make_move none none (some (Move.mk2 (0, 0) (0, 1))) =
      .ok (true,
        { height := 1, width := 2, player1 := 0, player2 := 1,
          field := [some [], some [0]] },
        some ⟨(0, 0), (0, 1), some [0]⟩) ∧
    GameField.take_back
      { height := 1, width := 2, player1 := 0, player2 := 1,
        field := [some [], some [0]] }
      ⟨(0, 0), (0, 1), some [0]⟩ = .error .wholeTower := by
  constructor <;> decide

/-- Claim C2 witness: the round trip at a concrete 1x2 board. -/
theorem claim_C2_make_take_back_round_trip_witness :
    GameField.take_back one_by_two_merged_max ⟨(0, 0), (0, 1), some [0]⟩ =
      .ok (one_by_two, Move.mk2 (0, 0) (0, 1)) :=
  claim_C2_make_take_back_round_trip one_by_two (Move.mk2 (0, 0) (0, 1)) [1]
    one_by_two_merged_max ⟨(0, 0), (0, 1), some [0]⟩ (by decide) (by decide) (by decide)

/-- Claim C4 (amended): for a Move object, `make_move` succeeds trivially on
a skip move changing nothing, raises (rather than returning a Boolean) when
the move was already applied, and otherwise returns false exactly when the
from-position equals the to-position or either position is out of range; a
height-0 tower at either position does not cause failure (see the
counterexample), and on a false return the field and the move are unchanged. -/
theorem claim_C4_make_move_failure_conditions :
    (∀ (gf : GameField) (m : Move), m.is_skip_move = true →
      gf.make_move none none (some m) = .ok (true, gf, some m)) ∧
    (∀ (gf : GameField) (m : Move), m.is_skip_move = false → m.already_made = true →
      gf.make_move none none (some m) = .error .alreadyMade) ∧
    (∀ (gf : GameField) (m : Move), gf.inv → m.is_skip_move = false →
      m.from_tower = none →
      ∃ b gf1 m1, gf.make_move none none (some m) = .ok (b, gf1, some m1) ∧
        (b = false ↔ (m.from_pos = m.to_pos ∨ gf.in_range m.from_pos = false ∨
          gf.in_range m.to_pos = false)) ∧
        (b = false → gf1 = gf ∧ m1 = m)) := by
  refine ⟨?_, ?_, ?_⟩
  · exact fun gf m h => make_move_skip h
  · intro gf m hskip hmade
    simp [GameField.make_move, hskip, hmade]
  · intro gf m hinv hskip hft
    have hmade : m.already_made = false := by
      unfold Move.already_made; rw [hft]; rfl
    by_cases hne : m.from_pos = m.to_pos
    · refine ⟨false, gf, m, ?_, ?_, fun _ => ⟨rfl, rfl⟩⟩
      · simp [GameField.make_move, hskip, hmade, GameField.make_move_go, hne]
      · simp [hne]
    · cases hf : gf.get_tower_at m.from_pos with
      | none =>
          refine ⟨false, gf, m, ?_, ?_, fun _ => ⟨rfl, rfl⟩⟩
          · simp [GameField.make_move, hskip, hmade, GameField.make_move_go,
              if_neg hne, hf]
          · simp only [true_iff]
            right; left
            cases hr : gf.in_range m.from_pos
            · rfl
            · obtain ⟨t, ht⟩ := inv_get_some hinv hr
              rw [ht] at hf
              cases hf
      | some t =>
          cases hl : gf.get_tower_at m.to_pos with
          | none =>
              refine ⟨false, gf, m, ?_, ?_, fun _ => ⟨rfl, rfl⟩⟩
              · simp [GameField.make_move, hskip, hmade, GameField.make_move_go,
                  if_neg hne, hf, hl]
              · simp only [true_iff]
                right; right
                cases hr : gf.in_range m.to_pos
                · rfl
                · obtain ⟨u, hu⟩ := inv_get_some hinv hr
                  rw [hu] at hl
                  cases hl
          | some u =>
              refine ⟨true, _, _, make_move_allowed hft hne hf hl, ?_, ?_⟩
              · simp only [Bool.true_eq_false, false_iff]
                push_neg
                refine ⟨hne, ?_, ?_⟩
                · rw [(get_tower_at_eq_some hf).1]; simp
                · rw [(get_tower_at_eq_some hl).1]; simp
              · intro h; cases h

/-- Claim C4 counterexample: the claim says `make_move` returns false when a
position's tower has height 0, but moving the tower at (0,0) onto the unit
tower at (0,1) succeeds (returns true). -/
theorem claim_C4_counterexample :
    unit_target_field.get_tower_at (0, 1) = some [] ∧
    (unit_target_field.make_move none none
        (some (Move.mk2 (0, 0) (0, 1)))).toOption.map (fun r => r.1) = some true := by
  constructor <;> decide

/-- Claim C4 witness: the failure characterisation applied on a concrete
board: an out-of-range target yields false with everything unchanged. -/
theorem claim_C4_make_move_failure_conditions_witness :
    ∃ b gf1 m1, one_by_two.make_move none none (some (Move.mk2 (0, 0) (0, 5))) =
      .ok (b, gf1, some m1) ∧
      (b = false ↔ ((0, 0) = ((0 : Int), (5 : Int)) ∨
        one_by_two.in_range (0, 0) = false ∨ one_by_two.in_range (0, 5) = false)) ∧
      (b = false → gf1 = one_by_two ∧ m1 = Move.mk2 (0, 0) (0, 5)) :=
  claim_C4_make_move_failure_conditions.2.2 one_by_two (Move.mk2 (0, 0) (0, 5))
    (inv_init 1 2 0 1) (by decide) (by decide)

/-- Claim C10: a `make_move` call given only explicit positions records no
undo data in any Move (the returned move component is absent on that path),
and `take_back` refuses (raises) for any move that is not already made, so a
state change made through explicit positions cannot be reverted. -/
theorem claim_C10_explicit_positions_not_revertible :
    (∀ (gf : GameField) (fp tp : Pos) (r : Bool × GameField × Option Move),
      gf.make_move (some fp) (some tp) none = .ok r → r.2.2 = none) ∧
    (∀ (gf : GameField) (m : Move), m.is_skip_move = false → m.from_tower = none →
      gf.take_back m = .error .takeBackNotMade) := by
  constructor
  · intro gf fp tp r h
    simp only [GameField.make_move] at h
    have hgo : (gf.make_move_go fp tp none).2.2 = none := by
      unfold GameField.make_move_go
      split
      · rfl
      · split
        · rfl
        · rfl
    cases h
    exact hgo
  · intro gf m hskip hft
    unfold GameField.take_back
    rw [hskip]
    simp only [Bool.false_eq_true, if_false, hft]

/-- Claim C10 witness: a concrete explicit-position merge returns no move
object, and taking back a fresh move raises. -/
theorem claim_C10_explicit_positions_not_revertible_witness :
    ((true, one_by_two_merged_max, (none : Option Move)) :
        Bool × GameField × Option Move).2.2 = none ∧
    one_by_two_merged_max.take_back (Move.mk2 (0, 0) (0, 1)) =
      .error .takeBackNotMade :=
  ⟨claim_C10_explicit_positions_not_revertible.1 one_by_two (0, 0) (0, 1)
      (true, one_by_two_merged_max, none) (by decide),
    claim_C10_explicit_positions_not_revertible.2 one_by_two_merged_max
      (Move.mk2 (0, 0) (0, 1)) (by decide) (by decide)⟩

/-- Claim C9: in the current module (`src/GameOfSanJego.py` of the `src`
package), `get_tower_at` returns absent and `set_tower_at` returns false
leaving the field unchanged for every out-of-range position.  The legacy
top-level copy of the module parenthesises its range guard wrongly
(`not a and b` instead of `not (a and b)`), so for positions with the row in
range and the column out of range it reads or overwrites a wrong cell; the
second and third conjuncts evaluate that buggy code at such positions. -/
theorem claim_C9_out_of_range_graceful :
    (∀ (gf : GameField) (pos : Pos) (t : Option Tower), gf.in_range pos = false →
      gf.get_tower_at pos = none ∧ gf.set_tower_at pos t = (false, gf)) ∧
    (GameFieldV0.init 5 4).get_tower_at (0, -1) = some (some ⟨1, [1]⟩) ∧
    ((GameFieldV0.init 5 4).set_tower_at (0, 4) (some ⟨0, [0]⟩)).map
        (fun r => (r.1, r.2.field.get? 4)) = some (true, some (some ⟨0, [0]⟩)) := by
  refine ⟨?_, by decide, by decide⟩
  intro gf pos t h
  constructor
  · unfold GameField.get_tower_at
    rw [h]
    rfl
  · unfold GameField.set_tower_at
    rw [h]
    rfl

/-- Claim C9 witness: the graceful behaviour of the current module at a
concrete out-of-range position (row in range, column out of range). -/
theorem claim_C9_out_of_range_graceful_witness :
    (GameField.init 5 4 0 1).get_tower_at (0, -1) = none ∧
    (GameField.init 5 4 0 1).set_tower_at (0, -1) none =
      (false, GameField.init 5 4 0 1) :=
  claim_C9_out_of_range_graceful.1 (GameField.init 5 4 0 1) (0, -1) none (by decide)

/-! Concrete evaluation of the search on the 1x2 board, at every depth. -/

lemma c7_skip_max : ∀ d : Nat,
    alpha_beta_search d (GameNode.mk .base (some Move.skip) true true)
      XInt.negInf XInt.posInf true one_by_two_merged_max =
      .ok (XInt.ofInt 2, [some Move.skip], one_by_two_merged_max)
  | 0 => by decide
  | d + 1 => by
      have hch : (GameNode.mk .base (some Move.skip) true true).children
          one_by_two_merged_max = .ok ([], one_by_two_merged_max) := by decide
      simp only [alpha_beta_search]
      rw [hch]
      rfl

lemma c7_child_max : ∀ d : Nat, ∃ ml,
    alpha_beta_search d
      (GameNode.mk .base (some ⟨(0, 0), (0, 1), some [0]⟩) false false)
      XInt.negInf XInt.posInf false one_by_two_merged_max =
      .ok (XInt.ofInt 2, ml, one_by_two_merged_max)
  | 0 => ⟨[some ⟨(0, 0), (0, 1), some [0]⟩], by decide⟩
  | d + 1 => by
      have hch : (GameNode.mk .base (some ⟨(0, 0), (0, 1), some [0]⟩) false false).children
          one_by_two_merged_max =
          .ok ([GameNode.mk .base (some Move.skip) true true], one_by_two_merged_max) := by
        decide
      refine ⟨[some (⟨(0, 0), (0, 1), some [0]⟩ : Move), some Move.skip], ?_⟩
      simp only [alpha_beta_search]
      rw [hch]
      simp only [Bool.not_false, Bool.false_eq_true, if_false, ab_loop_min,
        @make_move_skip one_by_two_merged_max Move.skip rfl,
        bind, Except.bind, Option.getD, c7_skip_max d,
        @take_back_skip one_by_two_merged_max Move.skip rfl,
        pure, Except.pure]
      rfl

lemma c7_top_max : ∀ d : Nat, ∃ ml,
    alpha_beta_search (d + 1) (GameNode.mk .base none true false)
      XInt.negInf XInt.posInf true one_by_two = .ok (XInt.ofInt 2, ml, one_by_two) := by
  intro d
  have hch : (GameNode.mk .base none true false).children one_by_two =
      .ok ([GameNode.mk .base (some (Move.mk2 (0, 0) (0, 1))) false false],
        one_by_two) := by decide
  have hmk : one_by_two.make_move none none (some (Move.mk2 (0, 0) (0, 1))) =
      .ok (true, one_by_two_merged_max, some ⟨(0, 0), (0, 1), some [0]⟩) := by decide
  have htb : one_by_two_merged_max.take_back ⟨(0, 0), (0, 1), some [0]⟩ =
      .ok (one_by_two, Move.mk2 (0, 0) (0, 1)) := by decide
  obtain ⟨mlc, hc⟩ := c7_child_max d
  refine ⟨mlc, ?_⟩
  simp only [alpha_beta_search]
  rw [hch]
  simp only [Bool.not_true, if_true, ab_loop_max, bind, Except.bind, Option.getD,
    hmk, hc, htb, pure, Except.pure]
  rfl

lemma c7_skip_min : ∀ d : Nat,
    alpha_beta_search d (GameNode.mk .base (some Move.skip) false true)
      XInt.negInf XInt.posInf false one_by_two_merged_min =
      .ok (XInt.ofInt (-2), [some Move.skip], one_by_two_merged_min)
  | 0 => by decide
  | d + 1 => by
      have hch : (GameNode.mk .base (some Move.skip) false true).children
          one_by_two_merged_min = .ok ([], one_by_two_merged_min) := by decide
      simp only [alpha_beta_search]
      rw [hch]
      rfl

lemma c7_child_min : ∀ d : Nat, ∃ ml,
    alpha_beta_search d
      (GameNode.mk .base (some ⟨(0, 1), (0, 0), some [1]⟩) true false)
      XInt.negInf XInt.posInf true one_by_two_merged_min =
      .ok (XInt.ofInt (-2), ml, one_by_two_merged_min)
  | 0 => ⟨[some ⟨(0, 1), (0, 0), some [1]⟩], by decide⟩
  | d + 1 => by
      have hch : (GameNode.mk .base (some ⟨(0, 1), (0, 0), some [1]⟩) true false).children
          one_by_two_merged_min =
          .ok ([GameNode.mk .base (some Move.skip) false true], one_by_two_merged_min) := by
        decide
      refine ⟨[some (⟨(0, 1), (0, 0), some [1]⟩ : Move), some Move.skip], ?_⟩
      simp only [alpha_beta_search]
      rw [hch]
      simp only [Bool.not_true, if_true, ab_loop_max,
        @make_move_skip one_by_two_merged_min Move.skip rfl,
        bind, Except.bind, Option.getD, c7_skip_min d,
        @take_back_skip one_by_two_merged_min Move.skip rfl,
        pure, Except.pure]
      rfl

lemma c7_top_min : ∀ d : Nat, ∃ ml,
    alpha_beta_search (d + 1) (GameNode.mk .base none false false)
      XInt.negInf XInt.posInf false one_by_two =
      .ok (XInt.ofInt (-2), ml, one_by_two) := by
  intro d
  have hch : (GameNode.mk .base none false false).children one_by_two =
      .ok ([GameNode.mk .base (some (Move.mk2 (0, 1) (0, 0))) true false],
        one_by_two) := by decide
  have hmk : one_by_two.make_move none none (some (Move.mk2 (0, 1) (0, 0))) =
      .ok (true, one_by_two_merged_min, some ⟨(0, 1), (0, 0), some [1]⟩) := by decide
  have htb : one_by_two_merged_min.take_back ⟨(0, 1), (0, 0), some [1]⟩ =
      .ok (one_by_two, Move.mk2 (0, 1) (0, 0)) := by decide
  obtain ⟨mlc, hc⟩ := c7_child_min d
  refine ⟨mlc, ?_⟩
  simp only [alpha_beta_search]
  rw [hch]
  simp only [Bool.not_false, Bool.false_eq_true, if_false, ab_loop_min,
    bind, Except.bind, Option.getD, hmk, hc, htb, pure, Except.pure]
  rfl

/-- Claim C7 counterexample: on the 1x2 base-ruleset board with the
maximising player to move first, the depth-1 search returns value 2, not the
claimed +1 (the merged tower has height 2 and the opponent none, and the
repository's own test `test_one_forced_move` expects 2 and -2). -/
theorem claim_C7_counterexample :
    (alpha_beta_search 1 (GameNode.mk .base none true false)
        XInt.negInf XInt.posInf true one_by_two).toOption.map (fun r => r.1) =
      some (XInt.ofInt 2) ∧
    XInt.ofInt 2 ≠ XInt.ofInt 1 := by
  constructor <;> decide

/-- Claim C7 (amended): on the 1x2 base-ruleset board, `alpha_beta_search`
with the default window returns value +2 at every depth at least 1 when
player1 (maximising) moves first, and value -2 when player2 (minimising)
moves first. -/
theorem claim_C7_one_by_two_values (d : Nat) (hd : 1 ≤ d) :
    (alpha_beta_search d (GameNode.mk .base none true false)
        XInt.negInf XInt.posInf true one_by_two).toOption.map (fun r => r.1) =
      some (XInt.ofInt 2) ∧
    (alpha_beta_search d (GameNode.mk .base none false false)
        XInt.negInf XInt.posInf false one_by_two).toOption.map (fun r => r.1) =
      some (XInt.ofInt (-2)) := by
  cases d with
  | zero => omega
  | succ d =>
      obtain ⟨ml1, h1⟩ := c7_top_max d
      obtain ⟨ml2, h2⟩ := c7_top_min d
      rw [h1, h2]
      exact ⟨rfl, rfl⟩

/-- Claim C7 witness: the amended claim at depth 1. -/
theorem claim_C7_one_by_two_values_witness :
    (alpha_beta_search 1 (GameNode.mk .base none true false)
        XInt.negInf XInt.posInf true one_by_two).toOption.map (fun r => r.1) =
      some (XInt.ofInt 2) ∧
    (alpha_beta_search 1 (GameNode.mk .base none false false)
        XInt.negInf XInt.posInf false one_by_two).toOption.map (fun r => r.1) =
      some (XInt.ofInt (-2)) :=
  claim_C7_one_by_two_values 1 (by decide)
